import Mathlib

/-!
Go-ImgToText: the upload pipeline of `main.go`.

A shallow embedding of `isValidImageType`, `performOCRFromBytes` and
`uploadHandler` from `main.go`, together with the parts of the Go standard
library they call (`path/filepath`, `unicode/utf8`, `strings`, `encoding/json`,
`mime/multipart`, `net/http`).

Go strings and byte slices are byte sequences: they are lists of naturals, each
byte being a number below 256.  Runes are naturals as well.
-/

namespace ImgToText

/-- A Go `string` or `[]byte`: a sequence of bytes. -/
abbrev Bytes := List Nat

/-- The bytes of an ASCII literal of the source. -/
def lit (s : String) : Bytes := s.toList.map Char.toNat

/-! ## `path/filepath` (Unix) -/

/-- The loop of `filepath.Ext`: `i + 1` is one past the index being inspected, so the
loop `for i := len(path)-1; i >= 0 && path[i] != '/'; i--` starts at `path.length`. -/
def filepathExtLoop (path : Bytes) : Nat → Bytes
  | 0 => []
  | i + 1 =>
    if path.getD i 0 = 47 then []
    else if path.getD i 0 = 46 then path.drop i
    else filepathExtLoop path i

/-- Go `filepath.Ext`: the suffix beginning at the final dot in the final
slash-separated element of `path`; empty if there is no dot. -/
def filepathExt (path : Bytes) : Bytes := filepathExtLoop path path.length

/-! ## `unicode/utf8` -/

/-- Go `utf8.RuneError`, U+FFFD. -/
def RuneError : Nat := 0xFFFD

/-- Go `utf8.RuneSelf`: bytes below it are single-byte runes. -/
def RuneSelf : Nat := 0x80

/-- Go `utf8.MaxRune`. -/
def MaxRune : Nat := 0x10FFFF

/-- The table `first` of `unicode/utf8`: information about the first byte of an encoding.
`0xF0` is `as` (ASCII), `0xF1` is `xx` (invalid), the others hold the accept-range index in
the high nibble and the size in the low one. -/
def utf8First (b : Nat) : Nat :=
  if b < 0x80 then 0xF0
  else if b < 0xC2 then 0xF1
  else if b < 0xE0 then 0x02
  else if b = 0xE0 then 0x13
  else if b < 0xED then 0x03
  else if b = 0xED then 0x23
  else if b < 0xF0 then 0x03
  else if b = 0xF0 then 0x34
  else if b < 0xF4 then 0x04
  else if b = 0xF4 then 0x44
  else 0xF1

/-- The table `acceptRanges` of `unicode/utf8`: the admissible range of the second byte. -/
def utf8AcceptRange (i : Nat) : Nat × Nat :=
  match i with
  | 0 => (0x80, 0xBF)
  | 1 => (0xA0, 0xBF)
  | 2 => (0x80, 0x9F)
  | 3 => (0x90, 0xBF)
  | 4 => (0x80, 0x8F)
  | _ => (0, 0)

/-- Go `utf8.DecodeRuneInString`: the first rune of `s` and its width in bytes.  An
invalid encoding yields `(RuneError, 1)`, the empty string `(RuneError, 0)`.  The masks
and shifts of the source are written arithmetically: `b & 0x3F` is `b % 64`, and an
or of disjoint shifted fields is their sum. -/
def utf8DecodeRune (s : Bytes) : Nat × Nat :=
  match s with
  | [] => (RuneError, 0)
  | s0 :: _ =>
    let x := utf8First s0
    if 0xF0 ≤ x then (if x = 0xF1 then RuneError else s0, 1)
    else
      let sz := x % 8
      let accept := utf8AcceptRange (x / 16)
      if s.length < sz then (RuneError, 1)
      else
        let s1 := s.getD 1 0
        if s1 < accept.1 ∨ accept.2 < s1 then (RuneError, 1)
        else if sz ≤ 2 then ((s0 % 32) * 64 + s1 % 64, 2)
        else
          let s2 := s.getD 2 0
          if s2 < 0x80 ∨ 0xBF < s2 then (RuneError, 1)
          else if sz ≤ 3 then ((s0 % 16) * 4096 + (s1 % 64) * 64 + s2 % 64, 3)
          else
            let s3 := s.getD 3 0
            if s3 < 0x80 ∨ 0xBF < s3 then (RuneError, 1)
            else ((s0 % 8) * 262144 + (s1 % 64) * 4096 + (s2 % 64) * 64 + s3 % 64, 4)

/-- Go `utf8.AppendRune` (as used by `strings.Builder.WriteRune`): the UTF-8 encoding
of a rune; surrogates and values above `MaxRune` are encoded as `RuneError`. -/
def utf8EncodeRune (r : Nat) : Bytes :=
  if r ≤ 0x7F then [r]
  else if r ≤ 0x7FF then [0xC0 + r / 64, 0x80 + r % 64]
  else if MaxRune < r ∨ (0xD800 ≤ r ∧ r ≤ 0xDFFF) then [0xEF, 0xBF, 0xBD]
  else if r ≤ 0xFFFF then [0xE0 + r / 4096, 0x80 + (r / 64) % 64, 0x80 + r % 64]
  else [0xF0 + r / 262144, 0x80 + (r / 4096) % 64, 0x80 + (r / 64) % 64, 0x80 + r % 64]

/-- The runes a Go `for _, c := range s` loop visits: each step decodes one rune and
advances by its width (1 for an invalid byte). -/
def runesFuel : Nat → Bytes → List Nat
  | 0, _ => []
  | _ + 1, [] => []
  | n + 1, b :: t =>
    let d := utf8DecodeRune (b :: t)
    d.1 :: runesFuel n ((b :: t).drop d.2)

/-- The runes of a string, in order. -/
def runes (s : Bytes) : List Nat := runesFuel s.length s

/-! ## `unicode` and `strings` -/

/-- Go `unicode.ToLower`.  ASCII is handled inline by the source; every other rune goes
through the case tables (`unicode.To(LowerCase, r)` over `unicode.CaseRanges`), which are
the parameter `tbl`. -/
def unicodeToLower (tbl : Nat → Nat) (r : Nat) : Nat :=
  if r ≤ 0x7F then (if 65 ≤ r ∧ r ≤ 90 then r + 32 else r)
  else tbl r

/-- The entries of Go's `unicode.CaseRanges` that send a rune outside ASCII to a
lower-case rune inside ASCII, `{0x0130, 0x0130, d{0, -199, 0}}` (capital I with dot above,
lower case `i`) and `{0x212A, 0x212A, d{0, -8383, 0}}` (Kelvin sign, lower case `k`),
together with the Latin-1 capitals `{0x00C0, 0x00D6, d{0, 32, 0}}` and
`{0x00D8, 0x00DE, d{0, 32, 0}}`; runes of other ranges are left alone here. -/
def caseRangesLower (r : Nat) : Nat :=
  if r = 0x130 then r - 199
  else if r = 0x212A then r - 8383
  else if (0xC0 ≤ r ∧ r ≤ 0xD6) ∨ (0xD8 ≤ r ∧ r ≤ 0xDE) then r + 32
  else r

/-- The second loop of `strings.Map`: every remaining rune is mapped and written. -/
def stringsMapRest (mapping : Nat → Nat) : Nat → Bytes → Bytes
  | 0, _ => []
  | _ + 1, [] => []
  | n + 1, b :: t =>
    let d := utf8DecodeRune (b :: t)
    let r := mapping d.1
    (if r < RuneSelf then [r] else utf8EncodeRune r) ++ stringsMapRest mapping n ((b :: t).drop d.2)

/-- The first loop of `strings.Map`: skip the runes the mapping leaves alone; at the first
rune that changes (an invalid byte always counts as changed), the output is the prefix
`done` read so far, the mapped rune, and the second loop over the rest.  When nothing
changes the input is returned as it is. -/
def stringsMapFirst (mapping : Nat → Nat) : Nat → Bytes → Bytes → Bytes
  | 0, done, _ => done
  | _ + 1, done, [] => done
  | n + 1, done, b :: t =>
    let d := utf8DecodeRune (b :: t)
    let c := d.1
    let r := mapping c
    if r = c ∧ (c ≠ RuneError ∨ d.2 ≠ 1) then
      stringsMapFirst mapping n (done ++ (b :: t).take d.2) ((b :: t).drop d.2)
    else
      done ++ utf8EncodeRune r ++ stringsMapRest mapping n ((b :: t).drop d.2)

/-- Go `strings.Map` for a mapping that never drops a rune. -/
def stringsMap (mapping : Nat → Nat) (s : Bytes) : Bytes :=
  stringsMapFirst mapping s.length [] s

/-- The byte-wise lower-casing of the ASCII path of `strings.ToLower`: `c += 'a' - 'A'`
for `'A' <= c && c <= 'Z'`. -/
def asciiLower (c : Nat) : Nat := if 65 ≤ c ∧ c ≤ 90 then c + 32 else c

/-- Go `strings.ToLower`: ASCII-only strings are lower-cased byte by byte (and returned
untouched when they hold no upper-case letter); any other string is mapped rune by rune
with `unicode.ToLower`. -/
def stringsToLower (tbl : Nat → Nat) (s : Bytes) : Bytes :=
  if s.all (fun c => c < RuneSelf) then
    if s.any (fun c => 65 ≤ c ∧ c ≤ 90) then
      s.map asciiLower
    else s
  else stringsMap (unicodeToLower tbl) s

/-! ## `isValidImageType` -/

/-- The allow-list `validExts` of `isValidImageType`. -/
def validExts : List Bytes :=
  [lit ".png", lit ".jpg", lit ".jpeg", lit ".gif", lit ".bmp"]

/-- The loop `for _, validExt := range validExts { if ext == validExt { return true } }`
followed by `return false`. -/
def isValidLoop (ext : Bytes) : List Bytes → Bool
  | [] => false
  | validExt :: rest => if ext = validExt then true else isValidLoop ext rest

/-- `isValidImageType` of `main.go`. -/
def isValidImageType (tbl : Nat → Nat) (filename : Bytes) : Bool :=
  let ext := stringsToLower tbl (filepathExt filename)
  isValidLoop ext validExts

/-- Specification side: the byte `c` is the ASCII byte `l` itself or, when `l` is a
lower-case letter, its upper-case form. -/
def caseOf (c l : Nat) : Bool := c = l ∨ (97 ≤ l ∧ l ≤ 122 ∧ c + 32 = l)

/-- Specification side: `e` is `v` with each letter independently in upper or lower case. -/
def caseVariant : Bytes → Bytes → Bool
  | [], [] => true
  | c :: e, l :: v => caseOf c l && caseVariant e v
  | _, _ => false

/-- Specification side: some byte of the string is outside ASCII. -/
def hasHigh (s : Bytes) : Prop := ∃ b ∈ s, 0x80 ≤ b

/-! ## `strings.TrimSpace` -/

/-- The table `asciiSpace` of package `strings`. -/
def asciiSpace (c : Nat) : Bool := c = 9 ∨ c = 10 ∨ c = 11 ∨ c = 12 ∨ c = 13 ∨ c = 32

/-- Go `unicode.IsSpace`: Latin-1 is special-cased, the other runes are those of the
`White_Space` table. -/
def unicodeIsSpace (r : Nat) : Bool :=
  if r ≤ 0xFF then
    r = 9 ∨ r = 10 ∨ r = 11 ∨ r = 12 ∨ r = 13 ∨ r = 32 ∨ r = 0x85 ∨ r = 0xA0
  else
    r = 0x1680 ∨ (0x2000 ≤ r ∧ r ≤ 0x200A) ∨ r = 0x2028 ∨ r = 0x2029 ∨ r = 0x202F ∨
      r = 0x205F ∨ r = 0x3000

/-- Go `utf8.RuneStart`: `b & 0xC0 != 0x80`. -/
def utf8RuneStart (b : Nat) : Bool := (b / 64) % 4 ≠ 2

/-- The backward scan of `utf8.DecodeLastRuneInString`,
`for start--; start >= lim; start-- { if RuneStart(s[start]) { break } }` followed by
`if start < 0 { start = 0 }`.  The argument is `start + 1`, the result is `start`. -/
def utf8LastScan (s : Bytes) (lim : Nat) : Nat → Nat
  | 0 => 0
  | k + 1 =>
    if k < lim then k
    else if utf8RuneStart (s.getD k 0) then k
    else utf8LastScan s lim k

/-- Go `utf8.DecodeLastRuneInString`: the last rune of `s` and its width. -/
def utf8DecodeLastRune (s : Bytes) : Nat × Nat :=
  if s.length = 0 then (RuneError, 0)
  else
    let r := s.getD (s.length - 1) 0
    if r < RuneSelf then (r, 1)
    else
      let lim := s.length - 4
      let start := utf8LastScan s lim (s.length - 1)
      let d := utf8DecodeRune (s.drop start)
      if start + d.2 ≠ s.length then (RuneError, 1) else d

/-- Go `strings.TrimLeftFunc(s, unicode.IsSpace)`: `indexFunc` looks for the first rune
that is not a space and the string is cut there (empty when there is none). -/
def trimLeftSpace : Nat → Bytes → Bytes
  | 0, _ => []
  | _ + 1, [] => []
  | n + 1, b :: t =>
    let d := utf8DecodeRune (b :: t)
    if unicodeIsSpace d.1 then trimLeftSpace n ((b :: t).drop d.2) else b :: t

/-- The loop of `lastIndexFunc(s, unicode.IsSpace, false)`: the index of the last rune
that is not a space, `none` standing for `-1`. -/
def lastIndexNotSpace (s : Bytes) : Nat → Nat → Option Nat
  | 0, _ => none
  | n + 1, i =>
    if i = 0 then none
    else
      let d := utf8DecodeLastRune (s.take i)
      if unicodeIsSpace d.1 then lastIndexNotSpace s n (i - d.2) else some (i - d.2)

/-- Go `strings.TrimRightFunc(s, unicode.IsSpace)`. -/
def trimRightSpace (s : Bytes) : Bytes :=
  match lastIndexNotSpace s (s.length + 1) s.length with
  | some i =>
    if RuneSelf ≤ s.getD i 0 then s.take (i + (utf8DecodeRune (s.drop i)).2)
    else s.take (i + 1)
  | none => []

/-- The second loop of `strings.TrimSpace`, over `u = s[start:]`: `stop` runs down from
the end; a byte outside ASCII hands over to `TrimRightFunc`. -/
def trimSpaceStop (u : Bytes) : Nat → Bytes
  | 0 => []
  | k + 1 =>
    let c := u.getD k 0
    if RuneSelf ≤ c then trimRightSpace (u.take (k + 1))
    else if asciiSpace c then trimSpaceStop u k
    else u.take (k + 1)

/-- Go `strings.TrimSpace`.  The first loop walks over leading ASCII spaces; a byte
outside ASCII hands the rest over to `TrimFunc(s[start:], unicode.IsSpace)`, which is
`TrimRightFunc(TrimLeftFunc(...))`. -/
def stringsTrimSpace : Bytes → Bytes
  | [] => []
  | c :: t =>
    if RuneSelf ≤ c then trimRightSpace (trimLeftSpace (c :: t).length (c :: t))
    else if asciiSpace c then stringsTrimSpace t
    else trimSpaceStop (c :: t) (c :: t).length

/-! ## The OCR engine (`gosseract`) and `performOCRFromBytes` -/

/-- A call on the engine binding. -/
inductive EngineOp where
  | newClient
  | setLanguage (lang : Bytes)
  | setPageSegMode (mode : Nat)
  | setVariable (name value : Bytes)
  | setImageFromBytes (image : Bytes)
  | text
  | close
  deriving DecidableEq, Repr

/-- The engine as a black box: `setImage` is the error of `SetImageFromBytes` (`none`
when the bytes are accepted), `text` is the result of `Text()`, the raw text or an error
message. -/
structure Engine where
  setImage : Bytes → Option Bytes
  text : Bytes → Except Bytes Bytes

/-- Go `gosseract.PSM_SINGLE_BLOCK`. -/
def PSM_SINGLE_BLOCK : Nat := 6

/-- The configuration calls of `performOCRFromBytes`, in source order. -/
def ocrConfig : List EngineOp :=
  [ .setLanguage (lit "eng"),
    .setPageSegMode PSM_SINGLE_BLOCK,
    .setVariable (lit "tessedit_char_whitelist")
      (lit "0123456789ABCDEFGHIJKLMNOPQRSTUVWXYZabcdefghijklmnopqrstuvwxyz.,!?@#$%^&*()_+-=[]\x7b\x7d|;\x27:,.<>?/~\x60 "),
    .setVariable (lit "tessedit_ocr_engine_mode") (lit "1"),
    .setVariable (lit "tessedit_pageseg_mode") (lit "6"),
    .setVariable (lit "classify_enable_learning") (lit "0"),
    .setVariable (lit "classify_enable_adaptive_matcher") (lit "0"),
    .setVariable (lit "textord_really_old_xheight") (lit "1"),
    .setVariable (lit "segment_penalty_dict_nonword") (lit "1.25"),
    .setVariable (lit "language_model_penalty_non_freq_dict_word") (lit "0.1"),
    .setVariable (lit "language_model_penalty_non_dict_word") (lit "0.15") ]

/-- A Go function body with the calls deferred in it: the deferred calls run, in the
order given, after the body has come to any of its `return`s. -/
def withDeferred {α β : Type} (deferred : List β) (body : α × List β) : α × List β :=
  (body.1, body.2 ++ deferred)

/-- `performOCRFromBytes` of `main.go`: the result (the trimmed text, or the error
message built by `fmt.Errorf`) and the calls made on the engine, in order.  The errors of
the configuration calls are ignored by the source. -/
def performOCRFromBytes (eng : Engine) (imageBytes : Bytes) :
    Except Bytes Bytes × List EngineOp :=
  let calls := [EngineOp.newClient]
  withDeferred [EngineOp.close] <|
    let calls := calls ++ ocrConfig
    let calls := calls ++ [EngineOp.setImageFromBytes imageBytes]
    match eng.setImage imageBytes with
    | some err => (.error (lit "failed to set image: " ++ err), calls)
    | none =>
      let calls := calls ++ [EngineOp.text]
      match eng.text imageBytes with
      | .error err => (.error (lit "failed to extract text: " ++ err), calls)
      | .ok text => (.ok (stringsTrimSpace text), calls)

/-! ## `encoding/json` -/

/-- The digit `hex[n]` of `"0123456789abcdef"`. -/
def hexDigit (n : Nat) : Nat := if n < 10 then 48 + n else 87 + n

/-- The table `htmlSafeSet` of `encoding/json`: the ASCII bytes written without escape
when HTML escaping is on (the default of `json.Marshal`). -/
def htmlSafe (b : Nat) : Bool :=
  0x20 ≤ b ∧ b < 0x80 ∧ b ≠ 34 ∧ b ≠ 38 ∧ b ≠ 60 ∧ b ≠ 62 ∧ b ≠ 92

/-- The loop of `appendString` of `encoding/json` with `escapeHTML` set: the contents of
a JSON string literal for the Go string `s`.  An invalid UTF-8 byte becomes the escape
of U+FFFD (backslash, `ufffd`); U+2028 and U+2029 are escaped. -/
def jsonStringLoop : Nat → Bytes → Bytes
  | 0, _ => []
  | _ + 1, [] => []
  | n + 1, b :: t =>
    if b < RuneSelf then
      (if htmlSafe b then [b]
       else if b = 92 ∨ b = 34 then [92, b]
       else if b = 8 then [92, 98]
       else if b = 12 then [92, 102]
       else if b = 10 then [92, 110]
       else if b = 13 then [92, 114]
       else if b = 9 then [92, 116]
       else [92, 117, 48, 48, hexDigit (b / 16), hexDigit (b % 16)]) ++ jsonStringLoop n t
    else
      let d := utf8DecodeRune ((b :: t).take 4)
      if d.1 = RuneError ∧ d.2 = 1 then
        [92, 117, 102, 102, 102, 100] ++ jsonStringLoop n t
      else if d.1 = 0x2028 ∨ d.1 = 0x2029 then
        [92, 117, 50, 48, 50, hexDigit (d.1 % 16)] ++ jsonStringLoop n ((b :: t).drop d.2)
      else
        (b :: t).take d.2 ++ jsonStringLoop n ((b :: t).drop d.2)

/-- The JSON string literal `json.Marshal` writes for a Go string. -/
def jsonString (s : Bytes) : Bytes := [34] ++ jsonStringLoop s.length s ++ [34]

/-- Go `json.Marshal` on the response struct of `uploadHandler`,
`struct { Text string "json:\"text\""; Filename string "json:\"filename\"" }`: both fields
are always written, in declaration order.  Marshalling two strings cannot fail. -/
def jsonMarshalResponse (text filename : Bytes) : Except Bytes Bytes :=
  .ok (lit "\x7b\"text\":" ++ jsonString text ++ lit ",\"filename\":" ++ jsonString filename ++
    lit "\x7d")

/-! ## `mime/multipart` and `net/http` -/

/-- One part of a `multipart/form-data` body: what `p.FormName()` and `p.FileName()`
return for it (`FileName` is empty for a plain value) and its content. -/
structure Part where
  formName : Bytes
  fileName : Bytes
  content : Bytes

/-- The request as `uploadHandler` sees it.  `body` is `none` when no sequence of parts
can be read from it (no multipart content type or boundary, malformed or truncated
body); `queryOk` tells whether `r.ParseForm()` accepts the URL query. -/
structure Request where
  method : Bytes
  queryOk : Bool
  body : Option (List Part)

/-- What the handler cannot see in the request: the file system under the temporary
files of `mime/multipart`, the content sniffing of `net/http`, and the OCR engine. -/
structure World where
  createTempOk : Bool
  openOk : Bool
  readOk : Bool
  detectContentType : Bytes → Bytes
  engine : Engine

/-- A `multipart.FileHeader`: the file name, and the content held in memory or in a
temporary file. -/
structure FileHeader where
  filename : Bytes
  content : Bytes
  onDisk : Bool

/-- The loop of `multipart.Reader.ReadForm(maxMemory)` over the parts.  A plain value is
charged to `maxValueBytes` and too many of them give `ErrMessageTooLarge`.  A file part of
at most `maxMemory` bytes stays in memory and is charged to both budgets; a larger one is
written to a temporary file, whatever its size. -/
def readFormLoop (world : World) :
    List Part → Int → Int → List (Bytes × FileHeader) → Except String (List (Bytes × FileHeader))
  | [], _, _, files => .ok files
  | p :: rest, maxMemory, maxValueBytes, files =>
    if p.formName = [] then readFormLoop world rest maxMemory maxValueBytes files
    else if p.fileName = [] then
      let n : Int := min (p.content.length : Int) (max 0 (maxValueBytes + 1))
      if maxValueBytes - n < 0 then .error "multipart: message too large"
      else readFormLoop world rest maxMemory (maxValueBytes - n) files
    else
      let n : Int := min (p.content.length : Int) (maxMemory + 1)
      if n > maxMemory then
        if world.createTempOk then
          readFormLoop world rest maxMemory maxValueBytes
            (files ++ [(p.formName, ⟨p.fileName, p.content, true⟩)])
        else .error "multipart: cannot write temporary file"
      else
        readFormLoop world rest (maxMemory - n) (maxValueBytes - n)
          (files ++ [(p.formName, ⟨p.fileName, p.content, false⟩)])

/-- Go `(*http.Request).ParseMultipartForm(maxMemory)`: the multipart body is read with
`ReadForm(maxMemory)`, which reserves 10 MB more for the plain values; an error of
`ParseForm` on the URL query is returned at the end. -/
def parseMultipartForm (world : World) (r : Request) (maxMemory : Nat) :
    Except String (List (Bytes × FileHeader)) :=
  match r.body with
  | none => .error "request Content-Type isn't multipart/form-data"
  | some parts =>
    match readFormLoop world parts maxMemory ((maxMemory : Int) + 10 * 2 ^ 20) [] with
    | .error e => .error e
    | .ok files => if r.queryOk then .ok files else .error "invalid URL escape"

/-- Go `(*http.Request).FormFile(key)` after a successful `ParseMultipartForm`: the
first file under `key` is opened; there is `http.ErrMissingFile` when there is none. -/
def formFile (world : World) (files : List (Bytes × FileHeader)) (key : Bytes) :
    Except String FileHeader :=
  match files.find? (fun f => f.1 = key) with
  | none => .error "http: no such file"
  | some f => if f.2.onDisk ∧ ¬ world.openOk then .error "open failed" else .ok f.2

/-- Go `io.ReadAll(file)`: the whole content; reading a temporary file may fail. -/
def ioReadAll (world : World) (file : FileHeader) : Except String Bytes :=
  if file.onDisk ∧ ¬ world.readOk then .error "read failed" else .ok file.content

/-- An `http.ResponseWriter`, recorded: the header map of the handler, the status line
and header sent (fixed by the first `WriteHeader`, explicit or implied by a `Write`), the
body sent, and the handler's calls of `WriteHeader` and `Write`. -/
structure ResponseWriter where
  header : List (Bytes × Bytes)
  sent : Option (Nat × List (Bytes × Bytes))
  body : Bytes
  writeHeaderCalls : List Nat
  writes : List Bytes

/-- The writer a handler starts with. -/
def ResponseWriter.fresh : ResponseWriter := ⟨[], none, [], [], []⟩

/-- Go `Header.Get` on a header map. -/
def headerGet (h : List (Bytes × Bytes)) (key : Bytes) : Option Bytes :=
  (h.find? (fun kv => kv.1 = key)).map (fun kv => kv.2)

/-- Go `w.Header().Set(key, value)`. -/
def ResponseWriter.headerSet (w : ResponseWriter) (key value : Bytes) : ResponseWriter :=
  { w with header := (key, value) :: w.header.filter (fun kv => kv.1 ≠ key) }

/-- Go `w.WriteHeader(code)`: the first call fixes the status and the header sent. -/
def ResponseWriter.writeHeader (w : ResponseWriter) (code : Nat) : ResponseWriter :=
  { w with
    writeHeaderCalls := w.writeHeaderCalls ++ [code]
    sent := match w.sent with
      | none => some (code, w.header)
      | some s => some s }

/-- Go `w.Write(data)`: a `Write` before any `WriteHeader` implies status 200; when the
header sent has no `Content-Type`, the first non-empty `Write` adds the sniffed one. -/
def ResponseWriter.write (world : World) (w : ResponseWriter) (data : Bytes) : ResponseWriter :=
  let s : Nat × List (Bytes × Bytes) := match w.sent with
    | none => (200, w.header)
    | some s => s
  let s := if w.body = [] ∧ data ≠ [] ∧ headerGet s.2 (lit "Content-Type") = none then
      (s.1, (lit "Content-Type", world.detectContentType data) :: s.2)
    else s
  { w with sent := some s, body := w.body ++ data, writes := w.writes ++ [data] }

/-- Go `http.Redirect(w, r, url, code)` for an absolute path `url` that needs no
cleaning or escaping (as `"/"`) and `code = 303`, whose status text is `See Other`: the
`Location` header is set; for GET and HEAD without a `Content-Type` one is set to
`text/html`; the status is written; for GET a short HTML body follows. -/
def httpRedirect (world : World) (w : ResponseWriter) (method url : Bytes) (code : Nat) :
    ResponseWriter :=
  let hadCT := (headerGet w.header (lit "Content-Type")).isSome
  let w := w.headerSet (lit "Location") url
  let w := if ¬ hadCT ∧ (method = lit "GET" ∨ method = lit "HEAD") then
      w.headerSet (lit "Content-Type") (lit "text/html; charset=utf-8")
    else w
  let w := w.writeHeader code
  if ¬ hadCT ∧ method = lit "GET" then
    w.write world (lit "<a href=\"" ++ url ++ lit "\">See Other</a>.\n" ++ lit "\n")
  else w

/-! ## `uploadHandler` -/

/-- What a handler does besides writing the response. -/
inductive Event where
  | parseMultipartForm (maxMemory : Nat)
  | formFile (key : Bytes)
  | readAll
  | fileClose
  | engine (op : EngineOp)
  deriving DecidableEq, Repr

/-- The result of running a handler: the response written and the events, in order. -/
structure Outcome where
  w : ResponseWriter
  events : List Event

/-- The effect of `defer file.Close()` on the rest of `uploadHandler`. -/
def deferFileClose (o : Outcome) : Outcome := { o with events := o.events ++ [Event.fileClose] }

/-- `uploadHandler` of `main.go`. -/
def uploadHandler (tbl : Nat → Nat) (world : World) (r : Request) : Outcome :=
  let w := ResponseWriter.fresh
  if r.method ≠ lit "POST" then
    ⟨httpRedirect world w r.method (lit "/") 303, []⟩
  else
    let w := w.headerSet (lit "Content-Type") (lit "application/json")
    let ev := [Event.parseMultipartForm (3 <<< 20)]
    match parseMultipartForm world r (3 <<< 20) with
    | .error _ =>
      let w := w.writeHeader 400
      ⟨w.write world (lit "\x7b\"error\": \"File too large or invalid form data\"\x7d"), ev⟩
    | .ok files =>
      let ev := ev ++ [Event.formFile (lit "image")]
      match formFile world files (lit "image") with
      | .error _ =>
        let w := w.writeHeader 400
        ⟨w.write world (lit "\x7b\"error\": \"No file uploaded or invalid file\"\x7d"), ev⟩
      | .ok header =>
        deferFileClose <|
          if ¬ isValidImageType tbl header.filename then
            let w := w.writeHeader 400
            ⟨w.write world (lit
              "\x7b\"error\": \"Please upload a valid image file (PNG, JPG, JPEG, GIF, BMP)\"\x7d"),
              ev⟩
          else
            let ev := ev ++ [Event.readAll]
            match ioReadAll world header with
            | .error _ =>
              let w := w.writeHeader 500
              ⟨w.write world (lit "\x7b\"error\": \"Failed to read uploaded file\"\x7d"), ev⟩
            | .ok fileBytes =>
              let ocr := performOCRFromBytes world.engine fileBytes
              let ev := ev ++ ocr.2.map Event.engine
              match ocr.1 with
              | .error err =>
                let w := w.writeHeader 500
                ⟨w.write world (lit "\x7b\"error\": \"OCR failed: " ++ err ++ lit "\"\x7d"), ev⟩
              | .ok extractedText =>
                match jsonMarshalResponse extractedText header.filename with
                | .error _ =>
                  let w := w.writeHeader 500
                  ⟨w.write world (lit "\x7b\"error\": \"Failed to encode response\"\x7d"), ev⟩
                | .ok jsonData => ⟨w.write world jsonData, ev⟩

/-- The status code of the response, once a status line has been sent. -/
def Outcome.status (o : Outcome) : Option Nat := o.w.sent.map fun s => s.1

/-- A header of the response as sent. -/
def Outcome.sentHeader (o : Outcome) (key : Bytes) : Option Bytes :=
  o.w.sent.bind fun s => headerGet s.2 key

/-- The header map of `uploadHandler` after `w.Header().Set("Content-Type", ...)`. -/
def jsonHeader : List (Bytes × Bytes) := [(lit "Content-Type", lit "application/json")]

/-- The writer after `w.WriteHeader(code)` and one `w.Write(data)` under `jsonHeader`. -/
def responded (code : Nat) (data : Bytes) : ResponseWriter :=
  ⟨jsonHeader, some (code, jsonHeader), data, [code], [data]⟩

/-! ## Concrete engines, worlds and requests for the examples -/

/-- An engine that accepts every image and returns the text `t`. -/
def engineReturning (t : Bytes) : Engine := ⟨fun _ => none, fun _ => .ok t⟩

/-- An engine that rejects every image with the message `msg`. -/
def engineRejecting (msg : Bytes) : Engine := ⟨fun _ => some msg, fun _ => .ok []⟩

/-- An engine that accepts every image and fails to extract text, with the message `msg`. -/
def engineFailing (msg : Bytes) : Engine := ⟨fun _ => none, fun _ => .error msg⟩

/-- A world where the file system works, around the given engine. -/
def worldOf (eng : Engine) : World :=
  ⟨true, true, true, fun _ => lit "text/plain; charset=utf-8", eng⟩

/-- A POST request whose form holds one file under the key `image`. -/
def postImage (filename content : Bytes) : Request :=
  ⟨lit "POST", true, some [⟨lit "image", filename, content⟩]⟩

/-! ## Specification side: reading a JSON object of string fields -/

/-- The value of a hexadecimal digit. -/
def hexVal (c : Nat) : Option Nat :=
  if 48 ≤ c ∧ c ≤ 57 then some (c - 48)
  else if 97 ≤ c ∧ c ≤ 102 then some (c - 87)
  else if 65 ≤ c ∧ c ≤ 70 then some (c - 55)
  else none

/-- The code unit written by four hexadecimal digits. -/
def hex4 (a b c d : Nat) : Option Nat :=
  match hexVal a, hexVal b, hexVal c, hexVal d with
  | some a, some b, some c, some d => some (a * 4096 + b * 256 + c * 16 + d)
  | _, _, _, _ => none

/-- The character a two-character escape stands for (RFC 8259, section 7). -/
def jsonUnescape (c : Nat) : Option Nat :=
  if c = 34 ∨ c = 92 ∨ c = 47 then some c
  else if c = 98 then some 8
  else if c = 102 then some 12
  else if c = 110 then some 10
  else if c = 114 then some 13
  else if c = 116 then some 9
  else none

/-- The low half of a surrogate pair at the head of `s`, with what follows it. -/
def jsonLowSurrogate (s : Bytes) : Option (Nat × Bytes) :=
  match s with
  | 92 :: 117 :: a :: b :: c :: d :: rest =>
    match hex4 a b c d with
    | some lo => if 0xDC00 ≤ lo ∧ lo ≤ 0xDFFF then some (lo, rest) else none
    | none => none
  | _ => none

/-- Reads a JSON string from just after its opening quote: the string it denotes, as
UTF-8 bytes, and the input after the closing quote.  A raw control character, an unknown
escape or a missing closing quote is an error (`none`).  A surrogate pair is combined; a
lone surrogate reads as U+FFFD. -/
def jsonReadString : Nat → Bytes → Option (Bytes × Bytes)
  | 0, _ => none
  | _ + 1, [] => none
  | n + 1, b :: rest =>
    if b = 34 then some ([], rest)
    else if b = 92 then
      match rest with
      | [] => none
      | c :: rest2 =>
        if c = 117 then
          match rest2 with
          | h1 :: h2 :: h3 :: h4 :: rest3 =>
            match hex4 h1 h2 h3 h4 with
            | none => none
            | some u =>
              if 0xD800 ≤ u ∧ u ≤ 0xDBFF then
                match jsonLowSurrogate rest3 with
                | some (lo, rest4) =>
                  (jsonReadString n rest4).map fun p =>
                    (utf8EncodeRune (0x10000 + (u - 0xD800) * 0x400 + (lo - 0xDC00)) ++ p.1, p.2)
                | none => (jsonReadString n rest3).map fun p => (utf8EncodeRune u ++ p.1, p.2)
              else (jsonReadString n rest3).map fun p => (utf8EncodeRune u ++ p.1, p.2)
          | _ => none
        else
          match jsonUnescape c with
          | none => none
          | some x => (jsonReadString n rest2).map fun p => (x :: p.1, p.2)
    else if b < 0x20 then none
    else (jsonReadString n rest).map fun p => (b :: p.1, p.2)

/-- JSON white space: space, tab, line feed, carriage return. -/
def jsonWs (c : Nat) : Bool := c = 32 ∨ c = 9 ∨ c = 10 ∨ c = 13

/-- Drops leading JSON white space. -/
def jsonSkipWs (s : Bytes) : Bytes := s.dropWhile jsonWs

/-- Reads the members of an object from just before a member's name up to the end of
the input: `name : string`, then a comma and more members, or the closing brace and
nothing but white space after it. -/
def jsonReadMembers : Nat → Bytes → Option (List (Bytes × Bytes))
  | 0, _ => none
  | n + 1, s =>
    match jsonSkipWs s with
    | [] => none
    | q :: s1 =>
      if q ≠ 34 then none
      else
        match jsonReadString s1.length s1 with
        | none => none
        | some (key, s2) =>
          match jsonSkipWs s2 with
          | [] => none
          | colon :: s3 =>
            if colon ≠ 58 then none
            else
              match jsonSkipWs s3 with
              | [] => none
              | q2 :: s4 =>
                if q2 ≠ 34 then none
                else
                  match jsonReadString s4.length s4 with
                  | none => none
                  | some (val, s5) =>
                    match jsonSkipWs s5 with
                    | [] => none
                    | c :: s6 =>
                      if c = 44 then (jsonReadMembers n s6).map fun m => (key, val) :: m
                      else if c = 125 then
                        (if jsonSkipWs s6 = [] then some [(key, val)] else none)
                      else none

/-- Reads a whole response body as a JSON object all of whose values are strings: the
members in order, or `none` when the body is not such a JSON text. -/
def jsonReadObject (s : Bytes) : Option (List (Bytes × Bytes)) :=
  match jsonSkipWs s with
  | [] => none
  | open_ :: s1 =>
    if open_ ≠ 123 then none
    else
      match jsonSkipWs s1 with
      | [] => none
      | c :: s2 =>
        if c = 125 then (if jsonSkipWs s2 = [] then some [] else none)
        else jsonReadMembers s.length s1

/-- Go `utf8.ValidString`, by steps of `utf8.DecodeRuneInString`: no step meets an
invalid byte. -/
def utf8ValidFuel : Nat → Bytes → Bool
  | 0, s => s = []
  | _ + 1, [] => true
  | n + 1, b :: t =>
    let d := utf8DecodeRune (b :: t)
    if d.1 = RuneError ∧ d.2 = 1 then false else utf8ValidFuel n ((b :: t).drop d.2)

/-- The string is valid UTF-8. -/
def utf8Valid (s : Bytes) : Bool := utf8ValidFuel s.length s

/-! ## Specification side: trimming white space -/

/-- Specification side: the UTF-8 encodings of the white space characters (the Unicode
property `White_Space`): the six ASCII ones, U+0085, U+00A0, U+1680, U+2000 to U+200A,
U+2028, U+2029, U+202F, U+205F and U+3000. -/
def spaceEncodings : List Bytes :=
  [[9], [10], [11], [12], [13], [32], [0xC2, 0x85], [0xC2, 0xA0], [0xE1, 0x9A, 0x80],
   [0xE2, 0x80, 0x80], [0xE2, 0x80, 0x81], [0xE2, 0x80, 0x82], [0xE2, 0x80, 0x83],
   [0xE2, 0x80, 0x84], [0xE2, 0x80, 0x85], [0xE2, 0x80, 0x86], [0xE2, 0x80, 0x87],
   [0xE2, 0x80, 0x88], [0xE2, 0x80, 0x89], [0xE2, 0x80, 0x8A], [0xE2, 0x80, 0xA8],
   [0xE2, 0x80, 0xA9], [0xE2, 0x80, 0xAF], [0xE2, 0x81, 0x9F], [0xE3, 0x80, 0x80]]

/-- Specification side: removes white space from the front, one character at a time. -/
def stripLeft : Nat → Bytes → Bytes
  | 0, s => s
  | n + 1, s =>
    match spaceEncodings.find? (fun e => e.isPrefixOf s) with
    | some e => stripLeft n (s.drop e.length)
    | none => s

/-- Specification side: removes white space from the end, one character at a time. -/
def stripRight : Nat → Bytes → Bytes
  | 0, s => s
  | n + 1, s =>
    match spaceEncodings.find? (fun e => e.isSuffixOf s) with
    | some e => stripRight n (s.take (s.length - e.length))
    | none => s

/-- Specification side: `t` with all leading and trailing white space removed. -/
def trimSpec (t : Bytes) : Bytes :=
  stripRight (stripLeft t.length t).length (stripLeft t.length t)

/-- What `TrimRightFunc` returns from the index found by `lastIndexFunc`. -/
def trimRightCut (s : Bytes) (r : Option Nat) : Bytes :=
  match r with
  | some i =>
    if RuneSelf ≤ s.getD i 0 then s.take (i + (utf8DecodeRune (s.drop i)).2)
    else s.take (i + 1)
  | none => []


/-! # Lemmas and theorems -/

/-! ## Lower-casing -/

theorem caseVariant_map_lower (e : Bytes) : caseVariant e (e.map asciiLower) = true := by
  induction e with
  | nil => rfl
  | cons c e ih =>
    simp only [List.map, caseVariant, ih, Bool.and_true, caseOf, asciiLower]
    split <;> simp; omega

theorem map_lower_of_no_upper (e : Bytes) (h : e.any (fun c => 65 ≤ c ∧ c ≤ 90) = false) :
    e.map asciiLower = e := by
  induction e with
  | nil => rfl
  | cons c e ih =>
    simp only [List.any_cons, Bool.or_eq_false_iff] at h
    simp only [List.map, ih h.2, asciiLower]
    have := h.1
    simp only [decide_eq_false_iff_not] at this
    rw [if_neg this]

theorem toLower_ascii (tbl : Nat → Nat) (e : Bytes) (h : e.all (fun c => c < RuneSelf) = true) :
    stringsToLower tbl e = e.map asciiLower := by
  unfold stringsToLower
  rw [if_pos h]
  split
  · rfl
  · rename_i hu
    exact (map_lower_of_no_upper e (by simpa using hu)).symm

theorem caseVariant_lower (e v : Bytes) (h : caseVariant e v = true)
    (hv : ∀ l ∈ v, l < 65 ∨ (90 < l ∧ l < 128)) :
    e.all (fun c => c < RuneSelf) = true ∧ e.map asciiLower = v := by
  induction e generalizing v with
  | nil =>
    cases v with
    | nil => simp
    | cons l v => simp [caseVariant] at h
  | cons c e ih =>
    cases v with
    | nil => simp [caseVariant] at h
    | cons l v =>
      simp only [caseVariant, Bool.and_eq_true, caseOf, decide_eq_true_eq] at h
      have hl := hv l (by simp)
      obtain ⟨h1, h2⟩ := ih v h.2 (fun l hl => hv l (by simp [hl]))
      have hc := h.1
      refine ⟨?_, ?_⟩
      · simp only [List.all_cons, Bool.and_eq_true, decide_eq_true_eq]
        exact ⟨by simp only [RuneSelf]; omega, h1⟩
      · simp only [List.map, h2, asciiLower, List.cons.injEq, and_true]
        split_ifs with hu
        · omega
        · omega

theorem validExts_lower (v : Bytes) (hv : v ∈ validExts) :
    ∀ l ∈ v, l < 65 ∨ (90 < l ∧ l < 128) := by
  have : ∀ v ∈ validExts, ∀ l ∈ v, l < 65 ∨ (90 < l ∧ l < 128) := by decide
  exact this v hv

theorem isValidLoop_eq_true (ext : Bytes) (l : List Bytes) :
    isValidLoop ext l = true ↔ ext ∈ l := by
  induction l with
  | nil => simp [isValidLoop]
  | cons a l ih =>
    simp only [isValidLoop, List.mem_cons]
    split
    · simp [*]
    · simp [*]

/-! ## Steps of the UTF-8 decoder -/

theorem utf8DecodeRune_ascii (b : Nat) (t : Bytes) (h : b < 0x80) :
    utf8DecodeRune (b :: t) = (b, 1) := by
  simp [utf8DecodeRune, utf8First, h]

theorem utf8First_cases (b : Nat) (h : 0x80 ≤ b) :
    utf8First b = 0xF1 ∨ (utf8First b = 0x02 ∧ 0xC2 ≤ b ∧ b < 0xE0) ∨
    (utf8First b = 0x13 ∧ b = 0xE0) ∨ (utf8First b = 0x03 ∧ 0xE1 ≤ b ∧ b < 0xF0 ∧ b ≠ 0xED) ∨
    (utf8First b = 0x23 ∧ b = 0xED) ∨ (utf8First b = 0x34 ∧ b = 0xF0) ∨
    (utf8First b = 0x04 ∧ 0xF1 ≤ b ∧ b < 0xF4) ∨ (utf8First b = 0x44 ∧ b = 0xF4) := by
  unfold utf8First
  rw [if_neg (by omega)]
  by_cases h1 : b < 0xC2
  · rw [if_pos h1]
    exact Or.inl rfl
  rw [if_neg h1]
  by_cases h2 : b < 0xE0
  · rw [if_pos h2]
    exact Or.inr (Or.inl ⟨rfl, by omega, h2⟩)
  rw [if_neg h2]
  by_cases h3 : b = 0xE0
  · rw [if_pos h3]
    exact Or.inr (Or.inr (Or.inl ⟨rfl, h3⟩))
  rw [if_neg h3]
  by_cases h4 : b < 0xED
  · rw [if_pos h4]
    exact Or.inr (Or.inr (Or.inr (Or.inl ⟨rfl, by omega, by omega, by omega⟩)))
  rw [if_neg h4]
  by_cases h5 : b = 0xED
  · rw [if_pos h5]
    exact Or.inr (Or.inr (Or.inr (Or.inr (Or.inl ⟨rfl, h5⟩))))
  rw [if_neg h5]
  by_cases h6 : b < 0xF0
  · rw [if_pos h6]
    exact Or.inr (Or.inr (Or.inr (Or.inl ⟨rfl, by omega, h6, h5⟩)))
  rw [if_neg h6]
  by_cases h7 : b = 0xF0
  · rw [if_pos h7]
    exact Or.inr (Or.inr (Or.inr (Or.inr (Or.inr (Or.inl ⟨rfl, h7⟩)))))
  rw [if_neg h7]
  by_cases h8 : b < 0xF4
  · rw [if_pos h8]
    exact Or.inr (Or.inr (Or.inr (Or.inr (Or.inr (Or.inr (Or.inl ⟨rfl, by omega, h8⟩))))))
  rw [if_neg h8]
  by_cases h9 : b = 0xF4
  · rw [if_pos h9]
    exact Or.inr (Or.inr (Or.inr (Or.inr (Or.inr (Or.inr (Or.inr ⟨rfl, h9⟩))))))
  · rw [if_neg h9]
    exact Or.inl rfl

theorem utf8First_mod (a : Nat) : utf8First a % 8 ≤ 4 := by
  by_cases ha : a < 0x80
  · unfold utf8First
    rw [if_pos ha]
    decide
  · rcases utf8First_cases a (by omega) with hx | ⟨hx, _⟩ | ⟨hx, _⟩ | ⟨hx, _⟩ | ⟨hx, _⟩ |
      ⟨hx, _⟩ | ⟨hx, _⟩ | ⟨hx, _⟩ <;> rw [hx] <;> decide

theorem utf8DecodeRune_take4 (s : Bytes) : utf8DecodeRune (s.take 4) = utf8DecodeRune s := by
  rcases s with _ | ⟨a, _ | ⟨b, _ | ⟨c, _ | ⟨d, t⟩⟩⟩⟩ <;> simp [utf8DecodeRune]
  have h := utf8First_mod a
  have h1 : ¬ 4 < utf8First a % 8 := by omega
  have h2 : ¬ t.length + 1 + 1 + 1 + 1 < utf8First a % 8 := by omega
  simp only [h1, h2, if_false]

/-- The shapes of a decoding step at a byte outside ASCII: an invalid byte, or a
well-formed sequence of two, three or four bytes. -/
theorem utf8DecodeRune_cases (b : Nat) (t : Bytes) (h : 0x80 ≤ b) :
    utf8DecodeRune (b :: t) = (RuneError, 1) ∨
    (∃ s1 t', t = s1 :: t' ∧ 0xC2 ≤ b ∧ b < 0xE0 ∧ 0x80 ≤ s1 ∧ s1 ≤ 0xBF ∧
      utf8DecodeRune (b :: t) = (b % 32 * 64 + s1 % 64, 2)) ∨
    (∃ s1 s2 t', t = s1 :: s2 :: t' ∧ 0xE0 ≤ b ∧ b < 0xF0 ∧ (b = 0xE0 → 0xA0 ≤ s1) ∧
      (b = 0xED → s1 ≤ 0x9F) ∧ 0x80 ≤ s1 ∧ s1 ≤ 0xBF ∧ 0x80 ≤ s2 ∧ s2 ≤ 0xBF ∧
      utf8DecodeRune (b :: t) = (b % 16 * 4096 + s1 % 64 * 64 + s2 % 64, 3)) ∨
    (∃ s1 s2 s3 t', t = s1 :: s2 :: s3 :: t' ∧ 0xF0 ≤ b ∧ b ≤ 0xF4 ∧ (b = 0xF0 → 0x90 ≤ s1) ∧
      (b = 0xF4 → s1 ≤ 0x8F) ∧ 0x80 ≤ s1 ∧ s1 ≤ 0xBF ∧ 0x80 ≤ s2 ∧ s2 ≤ 0xBF ∧
      0x80 ≤ s3 ∧ s3 ≤ 0xBF ∧
      utf8DecodeRune (b :: t) =
        (b % 8 * 262144 + s1 % 64 * 4096 + s2 % 64 * 64 + s3 % 64, 4)) := by
  rcases utf8First_cases b h with hx | ⟨hx, hb⟩ | ⟨hx, hb⟩ | ⟨hx, hb⟩ | ⟨hx, hb⟩ | ⟨hx, hb⟩ |
    ⟨hx, hb⟩ | ⟨hx, hb⟩
  · left
    simp [utf8DecodeRune, hx]
  · rcases t with _ | ⟨s1, t⟩
    · left
      simp [utf8DecodeRune, hx]
    · by_cases hs : s1 < 128 ∨ 191 < s1
      · left
        simp [utf8DecodeRune, hx, utf8AcceptRange, hs]
      · right; left
        refine ⟨s1, t, rfl, by omega, by omega, by omega, by omega, ?_⟩
        simp [utf8DecodeRune, hx, utf8AcceptRange, hs]
  · rcases t with _ | ⟨s1, _ | ⟨s2, t⟩⟩
    · left
      simp [utf8DecodeRune, hx]
    · left
      simp [utf8DecodeRune, hx]
    · by_cases hs : s1 < 160 ∨ 191 < s1
      · left
        simp [utf8DecodeRune, hx, utf8AcceptRange, hs]
      · by_cases hs2 : s2 < 128 ∨ 191 < s2
        · left
          simp [utf8DecodeRune, hx, utf8AcceptRange, hs, hs2]
        · right; right; left
          refine ⟨s1, s2, t, rfl, by omega, by omega, by omega, by omega, by omega, by omega,
            by omega, by omega, ?_⟩
          simp [utf8DecodeRune, hx, utf8AcceptRange, hs, hs2]
  · rcases t with _ | ⟨s1, _ | ⟨s2, t⟩⟩
    · left
      simp [utf8DecodeRune, hx]
    · left
      simp [utf8DecodeRune, hx]
    · by_cases hs : s1 < 128 ∨ 191 < s1
      · left
        simp [utf8DecodeRune, hx, utf8AcceptRange, hs]
      · by_cases hs2 : s2 < 128 ∨ 191 < s2
        · left
          simp [utf8DecodeRune, hx, utf8AcceptRange, hs, hs2]
        · right; right; left
          refine ⟨s1, s2, t, rfl, by omega, by omega, by omega, by omega, by omega, by omega,
            by omega, by omega, ?_⟩
          simp [utf8DecodeRune, hx, utf8AcceptRange, hs, hs2]
  · rcases t with _ | ⟨s1, _ | ⟨s2, t⟩⟩
    · left
      simp [utf8DecodeRune, hx]
    · left
      simp [utf8DecodeRune, hx]
    · by_cases hs : s1 < 128 ∨ 159 < s1
      · left
        simp [utf8DecodeRune, hx, utf8AcceptRange, hs]
      · by_cases hs2 : s2 < 128 ∨ 191 < s2
        · left
          simp [utf8DecodeRune, hx, utf8AcceptRange, hs, hs2]
        · right; right; left
          refine ⟨s1, s2, t, rfl, by omega, by omega, by omega, by omega, by omega, by omega,
            by omega, by omega, ?_⟩
          simp [utf8DecodeRune, hx, utf8AcceptRange, hs, hs2]
  · rcases t with _ | ⟨s1, _ | ⟨s2, _ | ⟨s3, t⟩⟩⟩
    · left
      simp [utf8DecodeRune, hx]
    · left
      simp [utf8DecodeRune, hx]
    · left
      simp [utf8DecodeRune, hx]
    · by_cases hs : s1 < 144 ∨ 191 < s1
      · left
        simp [utf8DecodeRune, hx, utf8AcceptRange, hs]
      · by_cases hs2 : s2 < 128 ∨ 191 < s2
        · left
          simp [utf8DecodeRune, hx, utf8AcceptRange, hs, hs2]
        · by_cases hs3 : s3 < 128 ∨ 191 < s3
          · left
            simp [utf8DecodeRune, hx, utf8AcceptRange, hs, hs2, hs3]
          · right; right; right
            refine ⟨s1, s2, s3, t, rfl, by omega, by omega, by omega, by omega, by omega,
              by omega, by omega, by omega, by omega, by omega, ?_⟩
            simp [utf8DecodeRune, hx, utf8AcceptRange, hs, hs2, hs3]
  · rcases t with _ | ⟨s1, _ | ⟨s2, _ | ⟨s3, t⟩⟩⟩
    · left
      simp [utf8DecodeRune, hx]
    · left
      simp [utf8DecodeRune, hx]
    · left
      simp [utf8DecodeRune, hx]
    · by_cases hs : s1 < 128 ∨ 191 < s1
      · left
        simp [utf8DecodeRune, hx, utf8AcceptRange, hs]
      · by_cases hs2 : s2 < 128 ∨ 191 < s2
        · left
          simp [utf8DecodeRune, hx, utf8AcceptRange, hs, hs2]
        · by_cases hs3 : s3 < 128 ∨ 191 < s3
          · left
            simp [utf8DecodeRune, hx, utf8AcceptRange, hs, hs2, hs3]
          · right; right; right
            refine ⟨s1, s2, s3, t, rfl, by omega, by omega, by omega, by omega, by omega,
              by omega, by omega, by omega, by omega, by omega, ?_⟩
            simp [utf8DecodeRune, hx, utf8AcceptRange, hs, hs2, hs3]
  · rcases t with _ | ⟨s1, _ | ⟨s2, _ | ⟨s3, t⟩⟩⟩
    · left
      simp [utf8DecodeRune, hx]
    · left
      simp [utf8DecodeRune, hx]
    · left
      simp [utf8DecodeRune, hx]
    · by_cases hs : s1 < 128 ∨ 143 < s1
      · left
        simp [utf8DecodeRune, hx, utf8AcceptRange, hs]
      · by_cases hs2 : s2 < 128 ∨ 191 < s2
        · left
          simp [utf8DecodeRune, hx, utf8AcceptRange, hs, hs2]
        · by_cases hs3 : s3 < 128 ∨ 191 < s3
          · left
            simp [utf8DecodeRune, hx, utf8AcceptRange, hs, hs2, hs3]
          · right; right; right
            refine ⟨s1, s2, s3, t, rfl, by omega, by omega, by omega, by omega, by omega,
              by omega, by omega, by omega, by omega, by omega, ?_⟩
            simp [utf8DecodeRune, hx, utf8AcceptRange, hs, hs2, hs3]

theorem utf8DecodeRune_high (b : Nat) (t : Bytes) (h : 0x80 ≤ b) :
    0x80 ≤ (utf8DecodeRune (b :: t)).1 := by
  rcases utf8DecodeRune_cases b t h with he | ⟨s1, t', _, h1, h2, h3, h4, he⟩ |
    ⟨s1, s2, t', _, h1, h2, h3, h4, h5, h6, h7, h8, he⟩ |
    ⟨s1, s2, s3, t', _, h1, h2, h3, h4, h5, h6, h7, h8, h9, h10, he⟩ <;> rw [he]
  · decide
  · show 0x80 ≤ b % 32 * 64 + s1 % 64
    omega
  · show 0x80 ≤ b % 16 * 4096 + s1 % 64 * 64 + s2 % 64
    omega
  · show 0x80 ≤ b % 8 * 262144 + s1 % 64 * 4096 + s2 % 64 * 64 + s3 % 64
    omega

theorem utf8DecodeRune_width_pos (b : Nat) (t : Bytes) : 1 ≤ (utf8DecodeRune (b :: t)).2 := by
  by_cases hb : b < 0x80
  · rw [utf8DecodeRune_ascii b t hb]
  · rcases utf8DecodeRune_cases b t (by omega) with he | ⟨s1, t', _, _, _, _, _, he⟩ |
      ⟨s1, s2, t', _, _, _, _, _, _, _, _, _, he⟩ |
      ⟨s1, s2, s3, t', _, _, _, _, _, _, _, _, _, _, _, he⟩ <;> rw [he] <;>
      simp only [Nat.one_le_ofNat, le_refl]

theorem utf8EncodeRune_high (r : Nat) (h : 0x80 ≤ r) : hasHigh (utf8EncodeRune r) := by
  unfold utf8EncodeRune hasHigh
  split
  · omega
  · split
    · exact ⟨0xC0 + r / 64, by simp, by omega⟩
    · split
      · exact ⟨0xEF, by simp, by omega⟩
      · split
        · exact ⟨0xE0 + r / 4096, by simp, by omega⟩
        · exact ⟨0xF0 + r / 262144, by simp, by omega⟩

theorem utf8EncodeRune_all_high (r : Nat) (h : 0x80 ≤ r) : ∀ x ∈ utf8EncodeRune r, 0x80 ≤ x := by
  intro x hx
  unfold utf8EncodeRune at hx
  split_ifs at hx <;> simp at hx <;> omega

/-- Decoding then encoding gives back the bytes decoded. -/
theorem utf8Encode_decode (b : Nat) (t : Bytes) (h : 0x80 ≤ b)
    (hv : utf8DecodeRune (b :: t) ≠ (RuneError, 1)) :
    utf8EncodeRune (utf8DecodeRune (b :: t)).1 = (b :: t).take (utf8DecodeRune (b :: t)).2 := by
  rcases utf8DecodeRune_cases b t h with he | ⟨s1, t', rfl, h1, h2, h3, h4, he⟩ |
    ⟨s1, s2, t', rfl, h1, h2, h3, h4, h5, h6, h7, h8, he⟩ |
    ⟨s1, s2, s3, t', rfl, h1, h2, h3, h4, h5, h6, h7, h8, h9, h10, he⟩
  · exact absurd he hv
  · rw [he]
    simp only [utf8EncodeRune, MaxRune, List.take_succ_cons, List.take_zero]
    split_ifs <;> first | omega | (simp only [List.cons.injEq, and_true]; omega)
  · rw [he]
    simp only [utf8EncodeRune, MaxRune, List.take_succ_cons, List.take_zero]
    split_ifs <;> first | omega | (simp only [List.cons.injEq, and_true]; omega)
  · rw [he]
    simp only [utf8EncodeRune, MaxRune, List.take_succ_cons, List.take_zero]
    split_ifs <;> first | omega | (simp only [List.cons.injEq, and_true]; omega)

/-! ## Lemmas on `strings.Map` and bytes outside ASCII -/

theorem hasHigh_append_left (a b : Bytes) (h : hasHigh a) : hasHigh (a ++ b) := by
  obtain ⟨x, hx, hx2⟩ := h
  exact ⟨x, by simp [hx], hx2⟩

theorem hasHigh_append_right (a b : Bytes) (h : hasHigh b) : hasHigh (a ++ b) := by
  obtain ⟨x, hx, hx2⟩ := h
  exact ⟨x, by simp [hx], hx2⟩

theorem hasHigh_cons_low (b : Nat) (t : Bytes) (hb : ¬ 0x80 ≤ b) (h : hasHigh (b :: t)) :
    hasHigh t := by
  obtain ⟨x, hx, hx2⟩ := h
  rcases List.mem_cons.1 hx with rfl | hx
  · exact absurd hx2 hb
  · exact ⟨x, hx, hx2⟩

theorem stringsMapRest_high (f : Nat → Nat) : ∀ (n : Nat) (s : Bytes), hasHigh s →
    (∀ r ∈ runesFuel n s, 0x80 ≤ r → 0x80 ≤ f r) → s.length ≤ n →
    hasHigh (stringsMapRest f n s) := by
  intro n
  induction n with
  | zero =>
    intro s hs _ hlen
    have : s = [] := List.length_eq_zero.1 (Nat.le_zero.1 hlen)
    subst this
    obtain ⟨x, hx, _⟩ := hs
    simp at hx
  | succ n ih =>
    intro s hs hr hlen
    cases s with
    | nil =>
      obtain ⟨x, hx, _⟩ := hs
      simp at hx
    | cons b t =>
      simp only [stringsMapRest]
      by_cases hb : 0x80 ≤ b
      · have hd := utf8DecodeRune_high b t hb
        have hf := hr (utf8DecodeRune (b :: t)).1 (by simp [runesFuel]) hd
        apply hasHigh_append_left
        rw [if_neg (by simp only [RuneSelf]; omega)]
        exact utf8EncodeRune_high _ hf
      · apply hasHigh_append_right
        have hd := utf8DecodeRune_ascii b t (by omega)
        simp only [runesFuel, hd, List.drop_succ_cons, List.drop_zero, List.mem_cons] at hr
        simp only [hd, List.drop_succ_cons, List.drop_zero]
        exact ih t (hasHigh_cons_low b t hb hs) (fun r hm => hr r (Or.inr hm))
          (by simpa using hlen)

theorem stringsMapFirst_high (f : Nat → Nat) : ∀ (n : Nat) (done s : Bytes),
    hasHigh done ∨ hasHigh s →
    (∀ r ∈ runesFuel n s, 0x80 ≤ r → 0x80 ≤ f r) → s.length ≤ n →
    hasHigh (stringsMapFirst f n done s) := by
  intro n
  induction n with
  | zero =>
    intro done s hs _ hlen
    have : s = [] := List.length_eq_zero.1 (Nat.le_zero.1 hlen)
    subst this
    rcases hs with hs | ⟨x, hx, _⟩
    · simpa [stringsMapFirst] using hs
    · simp at hx
  | succ n ih =>
    intro done s hs hr hlen
    cases s with
    | nil =>
      rcases hs with hs | ⟨x, hx, _⟩
      · simpa [stringsMapFirst] using hs
      · simp at hx
    | cons b t =>
      simp only [stringsMapFirst]
      have hw := utf8DecodeRune_width_pos b t
      split_ifs with hc
      · apply ih
        · rcases hs with hs | hs
          · exact Or.inl (hasHigh_append_left _ _ hs)
          · rw [← List.take_append_drop (utf8DecodeRune (b :: t)).2 (b :: t)] at hs
            obtain ⟨x, hx, hx2⟩ := hs
            rcases List.mem_append.1 hx with hx | hx
            · exact Or.inl (hasHigh_append_right _ _ ⟨x, hx, hx2⟩)
            · exact Or.inr ⟨x, hx, hx2⟩
        · intro r hm
          exact hr r (by simp [runesFuel, hm])
        · simp only [List.length_drop, List.length_cons] at hlen ⊢
          omega
      · rcases hs with hs | hs
        · exact hasHigh_append_left _ _ (hasHigh_append_left _ _ hs)
        · by_cases hb : 0x80 ≤ b
          · have hd := utf8DecodeRune_high b t hb
            have hf := hr (utf8DecodeRune (b :: t)).1 (by simp [runesFuel]) hd
            exact hasHigh_append_left _ _ (hasHigh_append_right _ _ (utf8EncodeRune_high _ hf))
          · apply hasHigh_append_right
            have hd := utf8DecodeRune_ascii b t (by omega)
            simp only [runesFuel, hd, List.drop_succ_cons, List.drop_zero, List.mem_cons] at hr
            simp only [hd, List.drop_succ_cons, List.drop_zero]
            exact stringsMapRest_high f n t (hasHigh_cons_low b t hb hs)
              (fun r hm => hr r (Or.inr hm)) (by simpa using hlen)

theorem stringsToLower_high (tbl : Nat → Nat) (s : Bytes)
    (hs : s.all (fun c => c < RuneSelf) = false)
    (hr : ∀ r ∈ runes s, 0x80 ≤ r → 0x80 ≤ tbl r) : hasHigh (stringsToLower tbl s) := by
  unfold stringsToLower
  rw [if_neg (by simp [hs])]
  apply stringsMapFirst_high
  · right
    simp only [List.all_eq_false, decide_eq_true_eq, RuneSelf] at hs
    obtain ⟨x, hx, hx2⟩ := hs
    exact ⟨x, hx, by omega⟩
  · intro r hm hr2
    have := hr r hm hr2
    simp only [unicodeToLower]
    rw [if_neg (by omega)]
    exact this
  · exact le_refl _

theorem validExts_not_high (v : Bytes) (hv : v ∈ validExts) : ¬ hasHigh v := by
  rintro ⟨x, hx, hx2⟩
  have := validExts_lower v hv x hx
  omega

/-! ## Claims on `isValidImageType` -/

/-- C1: `isValidImageType` accepts every filename whose extension (as `filepath.Ext`
computes it) is one of `.png`, `.jpg`, `.jpeg`, `.gif`, `.bmp` with each letter
independently in upper or lower case. -/
theorem isValidImageType_accepts (tbl : Nat → Nat) (filename v : Bytes) (hv : v ∈ validExts)
    (h : caseVariant (filepathExt filename) v = true) :
    isValidImageType tbl filename = true := by
  obtain ⟨h1, h2⟩ := caseVariant_lower _ v h (validExts_lower v hv)
  simp only [isValidImageType]
  rw [isValidLoop_eq_true, toLower_ascii tbl _ h1, h2]
  exact hv

theorem isValidImageType_accepts_witness :
    isValidImageType caseRangesLower (lit "Scan.2024.JpEg") = true :=
  isValidImageType_accepts caseRangesLower (lit "Scan.2024.JpEg") (lit ".jpeg")
    (by decide) (by decide)

/-- C2, refuted as stated: the extension `.gİf` (bytes `2E 67 C4 B0 66`, the third rune
being U+0130) is not an upper/lower-case variant of an allowed extension, it contains a
non-ASCII character, and `isValidImageType` returns true on it. -/
theorem isValidImageType_nonascii_accepted :
    (∀ v ∈ validExts, caseVariant (filepathExt [0x61, 0x2E, 0x67, 0xC4, 0xB0, 0x66]) v = false) ∧
    hasHigh (filepathExt [0x61, 0x2E, 0x67, 0xC4, 0xB0, 0x66]) ∧
    isValidImageType caseRangesLower [0x61, 0x2E, 0x67, 0xC4, 0xB0, 0x66] = true :=
  ⟨by decide, ⟨0xC4, by decide, by decide⟩, by decide⟩

theorem isValidImageType_not_variant (tbl : Nat → Nat) (filename : Bytes)
    (h : ∀ v ∈ validExts, caseVariant (filepathExt filename) v = false)
    (hr : ∀ r ∈ runes (filepathExt filename), 0x80 ≤ r → 0x80 ≤ tbl r) :
    isValidImageType tbl filename = false := by
  rw [Bool.eq_false_iff]
  intro hacc
  simp only [isValidImageType, isValidLoop_eq_true] at hacc
  by_cases ha : (filepathExt filename).all (fun c => c < RuneSelf) = true
  · rw [toLower_ascii tbl _ ha] at hacc
    have := h _ hacc
    rw [caseVariant_map_lower] at this
    exact Bool.noConfusion this
  · exact validExts_not_high _ hacc (stringsToLower_high tbl _ (by simpa using ha) hr)

/-- C2, amended: `isValidImageType` returns false for every filename whose extension is
not an upper/lower-case variant of an allowed extension, provided no rune of the extension
outside ASCII has a lower case inside ASCII in the Unicode case tables (an invalid byte
counting as U+FFFD).  This covers a filename without a dot, the empty extension, `.txt`,
`.pdf` and every all-ASCII extension. -/
theorem isValidImageType_rejects (tbl : Nat → Nat) (filename : Bytes)
    (h : ∀ v ∈ validExts, caseVariant (filepathExt filename) v = false)
    (hr : ∀ r ∈ runes (filepathExt filename), 0x80 ≤ r → 0x80 ≤ tbl r) :
    isValidImageType tbl filename = false :=
  isValidImageType_not_variant tbl filename h hr

theorem isValidImageType_rejects_witness :
    isValidImageType caseRangesLower [0x61, 0x2E, 0x70, 0xC3, 0x91, 0x67] = false :=
  isValidImageType_rejects caseRangesLower [0x61, 0x2E, 0x70, 0xC3, 0x91, 0x67]
    (by decide) (by decide)

/-! ## UTF-8 steps and reading back `encoding/json` strings -/

theorem hexVal_hexDigit (n : Nat) (h : n < 16) : hexVal (hexDigit n) = some n := by
  unfold hexVal hexDigit
  split_ifs <;> first | omega | (simp only [Option.some.injEq]; omega)

theorem jsonReadString_plain (k b : Nat) (x : Bytes) (h1 : b ≠ 34) (h2 : b ≠ 92)
    (h3 : 0x20 ≤ b) :
    jsonReadString (k + 1) (b :: x) = (jsonReadString k x).map fun q => (b :: q.1, q.2) := by
  have h4 : ¬ b < 0x20 := by omega
  simp only [jsonReadString, h1, h2, h4, if_false]

theorem jsonReadString_escape (k c v : Nat) (x : Bytes) (h1 : c ≠ 117)
    (h2 : jsonUnescape c = some v) :
    jsonReadString (k + 1) (92 :: c :: x) =
      (jsonReadString k x).map fun q => (v :: q.1, q.2) := by
  simp [jsonReadString, h1, h2]

theorem jsonReadString_u (k h1 h2 h3 h4 u : Nat) (x : Bytes)
    (hu : hex4 h1 h2 h3 h4 = some u) (hs : ¬ (0xD800 ≤ u ∧ u ≤ 0xDBFF)) :
    jsonReadString (k + 1) (92 :: 117 :: h1 :: h2 :: h3 :: h4 :: x) =
      (jsonReadString k x).map fun q => (utf8EncodeRune u ++ q.1, q.2) := by
  simp only [jsonReadString, hu]
  simp [hs]

theorem jsonReadString_raw (p x : Bytes) (m : Nat)
    (hp : ∀ c ∈ p, c ≠ 34 ∧ c ≠ 92 ∧ 0x20 ≤ c) :
    jsonReadString (m + p.length) (p ++ x) =
      (jsonReadString m x).map fun q => (p ++ q.1, q.2) := by
  induction p with
  | nil => simp
  | cons c p ih =>
    obtain ⟨h1, h2, h3⟩ := hp c (by simp)
    have : m + (c :: p).length = (m + p.length) + 1 := by simp; omega
    rw [this, List.cons_append, jsonReadString_plain _ _ _ h1 h2 h3,
      ih (fun c hc => hp c (by simp [hc]))]
    cases jsonReadString m x <;> simp

theorem hex4_low (b : Nat) (h : b < 0x80) :
    hex4 48 48 (hexDigit (b / 16)) (hexDigit (b % 16)) = some b := by
  have h0 : hexVal 48 = some 0 := by decide
  simp only [hex4, h0, hexVal_hexDigit (b / 16) (by omega), hexVal_hexDigit (b % 16) (by omega)]
  simp only [Option.some.injEq]
  omega

theorem jsonReadString_loop : ∀ (n : Nat) (s rest : Bytes) (m : Nat), s.length ≤ n →
    utf8ValidFuel n s = true →
    jsonReadString (m + (jsonStringLoop n s).length + 1) (jsonStringLoop n s ++ 34 :: rest) =
      some (s, rest) := by
  intro n
  induction n with
  | zero =>
    intro s rest m hlen _
    have : s = [] := List.length_eq_zero.1 (Nat.le_zero.1 hlen)
    subst this
    simp [jsonStringLoop, jsonReadString]
  | succ n ih =>
    intro s rest m hlen hv
    cases s with
    | nil => simp [jsonStringLoop, jsonReadString]
    | cons b t =>
      have hlen' : t.length ≤ n := by simpa using hlen
      by_cases hb : b < RuneSelf
      · have hb' : b < 0x80 := hb
        have hd := utf8DecodeRune_ascii b t hb'
        have hvt : utf8ValidFuel n t = true := by
          simp only [utf8ValidFuel, hd, List.drop_succ_cons, List.drop_zero] at hv
          simp only [RuneError] at hv
          split_ifs at hv with hq
          exact hv
        simp only [jsonStringLoop, hb, if_true]
        by_cases h1 : htmlSafe b = true
        · simp only [h1, if_true]
          have hs := h1
          simp only [htmlSafe, decide_eq_true_eq] at hs
          have hf : m + ([b] ++ jsonStringLoop n t).length + 1 =
              (m + (jsonStringLoop n t).length + 1) + 1 := by simp; omega
          rw [hf, List.append_assoc, List.singleton_append,
            jsonReadString_plain _ _ _ hs.2.2.1 hs.2.2.2.2.2.2 hs.1, ih t rest m hlen' hvt]
          rfl
        · simp only [h1, Bool.false_eq_true, if_false]
          have e2 : ∀ (c v : Nat), c ≠ 117 → jsonUnescape c = some v →
              jsonReadString (m + ([92, c] ++ jsonStringLoop n t).length + 1)
                (([92, c] ++ jsonStringLoop n t) ++ 34 :: rest) = some (v :: t, rest) := by
            intro c v hc hu
            have hf : m + ([92, c] ++ jsonStringLoop n t).length + 1 =
                ((m + 1) + (jsonStringLoop n t).length + 1) + 1 := by simp; omega
            rw [hf, List.append_assoc]
            simp only [List.cons_append, List.nil_append]
            rw [jsonReadString_escape _ _ _ _ hc hu, ih t rest (m + 1) hlen' hvt]
            rfl
          by_cases h2 : b = 92 ∨ b = 34
          · simp only [h2, if_true]
            rcases h2 with rfl | rfl
            · exact e2 92 92 (by decide) (by decide)
            · exact e2 34 34 (by decide) (by decide)
          simp only [h2, if_false]
          by_cases h3 : b = 8
          · subst h3
            simp only [if_true]
            exact e2 98 8 (by decide) (by decide)
          simp only [h3, if_false]
          by_cases h4 : b = 12
          · subst h4
            simp only [if_true]
            exact e2 102 12 (by decide) (by decide)
          simp only [h4, if_false]
          by_cases h5 : b = 10
          · subst h5
            simp only [if_true]
            exact e2 110 10 (by decide) (by decide)
          simp only [h5, if_false]
          by_cases h6 : b = 13
          · subst h6
            simp only [if_true]
            exact e2 114 13 (by decide) (by decide)
          simp only [h6, if_false]
          by_cases h7 : b = 9
          · subst h7
            simp only [if_true]
            exact e2 116 9 (by decide) (by decide)
          simp only [h7, if_false]
          have hf : m + ([92, 117, 48, 48, hexDigit (b / 16), hexDigit (b % 16)] ++
              jsonStringLoop n t).length + 1 =
              ((m + 5) + (jsonStringLoop n t).length + 1) + 1 := by simp; omega
          rw [hf, List.append_assoc]
          simp only [List.cons_append, List.nil_append]
          rw [jsonReadString_u _ _ _ _ _ b _ (hex4_low b hb') (by omega),
            ih t rest (m + 5) hlen' hvt]
          have : utf8EncodeRune b = [b] := by
            simp only [utf8EncodeRune]
            rw [if_pos (by omega)]
          simp [this]
      · have hb' : 0x80 ≤ b := by simp only [RuneSelf] at hb; omega
        have hw := utf8DecodeRune_width_pos b t
        simp only [utf8ValidFuel] at hv
        split_ifs at hv with hbad
        have hne : utf8DecodeRune (b :: t) ≠ (RuneError, 1) := by
          intro he
          exact hbad (by rw [he]; exact ⟨rfl, rfl⟩)
        have henc := utf8Encode_decode b t hb' hne
        have hdl : ((b :: t).drop (utf8DecodeRune (b :: t)).2).length ≤ n := by
          simp only [List.length_drop, List.length_cons] at hlen ⊢
          omega
        simp only [jsonStringLoop, hb, if_false, utf8DecodeRune_take4, hbad]
        by_cases hsep : (utf8DecodeRune (b :: t)).1 = 0x2028 ∨ (utf8DecodeRune (b :: t)).1 = 0x2029
        · simp only [hsep, if_true]
          have hh : hex4 50 48 50 (hexDigit ((utf8DecodeRune (b :: t)).1 % 16)) =
              some (utf8DecodeRune (b :: t)).1 := by
            rcases hsep with h | h <;> rw [h] <;> decide
          have hf : ∀ (L : Bytes) (x : Nat), m + ([92, 117, 50, 48, 50, x] ++ L).length + 1 =
              ((m + 5) + L.length + 1) + 1 := by intro L x; simp; omega
          rw [hf, List.append_assoc]
          simp only [List.cons_append, List.nil_append]
          rw [jsonReadString_u _ _ _ _ _ _ _ hh (by rcases hsep with h | h <;> rw [h] <;> decide),
            ih _ rest (m + 5) hdl hv]
          simp only [Option.map_some', henc, List.take_append_drop]
        · simp only [hsep, if_false]
          have hf : ∀ (p L : Bytes), m + (p ++ L).length + 1 = (m + L.length + 1) + p.length := by
            intro p L; simp; omega
          rw [hf, List.append_assoc, jsonReadString_raw _ _ _ ?_, ih _ rest m hdl hv]
          · simp only [Option.map_some', List.take_append_drop]
          · intro c hc
            rw [← henc] at hc
            have := utf8EncodeRune_all_high _ (utf8DecodeRune_high b t hb') c hc
            omega

theorem jsonReadString_key (p rest : Bytes) (hp : ∀ c ∈ p, c ≠ 34 ∧ c ≠ 92 ∧ 0x20 ≤ c) :
    jsonReadString (p ++ 34 :: rest).length (p ++ 34 :: rest) = some (p, rest) := by
  have hf : (p ++ 34 :: rest).length = (rest.length + 1) + p.length := by simp; omega
  rw [hf, jsonReadString_raw _ _ _ hp]
  simp [jsonReadString]

theorem jsonReadString_value (s rest : Bytes) (hv : utf8Valid s = true) :
    jsonReadString (jsonStringLoop s.length s ++ 34 :: rest).length
      (jsonStringLoop s.length s ++ 34 :: rest) = some (s, rest) := by
  have hf : (jsonStringLoop s.length s ++ 34 :: rest).length =
      rest.length + (jsonStringLoop s.length s).length + 1 := by simp; omega
  rw [hf]
  exact jsonReadString_loop s.length s rest rest.length (le_refl _) hv

theorem jsonSkipWs_cons (c : Nat) (x : Bytes) (h : jsonWs c = false) :
    jsonSkipWs (c :: x) = c :: x := by
  simp [jsonSkipWs, List.dropWhile_cons, h]

theorem jsonReadMembers_more (f : Nat) (key val more : Bytes)
    (hk : ∀ c ∈ key, c ≠ 34 ∧ c ≠ 92 ∧ 0x20 ≤ c) (hv : utf8Valid val = true) :
    jsonReadMembers (f + 1)
      (34 :: (key ++ 34 :: 58 :: 34 :: (jsonStringLoop val.length val ++ 34 :: 44 :: more))) =
      (jsonReadMembers f more).map fun m => (key, val) :: m := by
  simp only [jsonReadMembers]
  rw [jsonSkipWs_cons 34 _ (by decide)]
  simp only [ne_eq, not_true_eq_false, if_false]
  rw [jsonReadString_key key _ hk]
  simp only []
  rw [jsonSkipWs_cons 58 _ (by decide)]
  simp only [ne_eq, not_true_eq_false, if_false]
  rw [jsonSkipWs_cons 34 _ (by decide)]
  simp only [ne_eq, not_true_eq_false, if_false]
  rw [jsonReadString_value val _ hv]
  simp only []
  rw [jsonSkipWs_cons 44 _ (by decide)]
  simp only [if_true]

theorem jsonReadMembers_last (f : Nat) (key val : Bytes)
    (hk : ∀ c ∈ key, c ≠ 34 ∧ c ≠ 92 ∧ 0x20 ≤ c) (hv : utf8Valid val = true) :
    jsonReadMembers (f + 1)
      (34 :: (key ++ 34 :: 58 :: 34 :: (jsonStringLoop val.length val ++ 34 :: [125]))) =
      some [(key, val)] := by
  simp only [jsonReadMembers]
  rw [jsonSkipWs_cons 34 _ (by decide)]
  simp only [ne_eq, not_true_eq_false, if_false]
  rw [jsonReadString_key key _ hk]
  simp only []
  rw [jsonSkipWs_cons 58 _ (by decide)]
  simp only [ne_eq, not_true_eq_false, if_false]
  rw [jsonSkipWs_cons 34 _ (by decide)]
  simp only [ne_eq, not_true_eq_false, if_false]
  rw [jsonReadString_value val _ hv]
  simp only []
  rw [jsonSkipWs_cons 125 _ (by decide)]
  simp [jsonSkipWs]

/-- The body written on success reads back as the two fields `text` and `filename`. -/
theorem jsonReadObject_response (text filename : Bytes) (hv1 : utf8Valid text = true)
    (hv2 : utf8Valid filename = true) :
    jsonReadObject (lit "\x7b\"text\":" ++ jsonString text ++ lit ",\"filename\":" ++
      jsonString filename ++ lit "\x7d") =
      some [(lit "text", text), (lit "filename", filename)] := by
  have h1 : lit "\x7b\"text\":" = 123 :: 34 :: (lit "text" ++ [34, 58]) := by decide
  have h2 : lit ",\"filename\":" = 44 :: 34 :: (lit "filename" ++ [34, 58]) := by decide
  have h3 : lit "\x7d" = [125] := by decide
  have hb : lit "\x7b\"text\":" ++ jsonString text ++ lit ",\"filename\":" ++
      jsonString filename ++ lit "\x7d" =
      123 :: 34 :: (lit "text" ++ 34 :: 58 :: 34 :: (jsonStringLoop text.length text ++
        34 :: 44 :: 34 :: (lit "filename" ++ 34 :: 58 :: 34 ::
          (jsonStringLoop filename.length filename ++ 34 :: [125])))) := by
    rw [h1, h2, h3]
    simp [jsonString]
  rw [hb]
  simp only [jsonReadObject]
  rw [jsonSkipWs_cons 123 _ (by decide)]
  simp only [ne_eq, not_true_eq_false, if_false]
  rw [jsonSkipWs_cons 34 _ (by decide)]
  have h34 : (34 : Nat) = 125 ↔ False := by decide
  simp only [h34, if_false, List.length_cons]
  rw [jsonReadMembers_more _ _ _ _ (by decide) hv1]
  have hlen : ∀ x : Bytes, (lit "text" ++ x).length = (x.length + 3) + 1 := by
    intro x
    simp [lit]
  rw [hlen, jsonReadMembers_last _ _ _ (by decide) hv2]
  rfl

/-! ## `strings.TrimSpace` removes the leading and trailing white space -/

theorem utf8First_two (b : Nat) (h : 0xC2 ≤ b ∧ b < 0xE0) : utf8First b = 0x02 := by
  unfold utf8First
  rw [if_neg (by omega), if_neg (by omega), if_pos (by omega)]

theorem utf8First_three (b : Nat) (h : 0xE1 ≤ b ∧ b < 0xED) : utf8First b = 0x03 := by
  unfold utf8First
  rw [if_neg (by omega), if_neg (by omega), if_neg (by omega), if_neg (by omega),
    if_pos (by omega)]

theorem utf8DecodeRune_two (b s1 : Nat) (x : Bytes)
    (h : 0xC2 ≤ b ∧ b < 0xE0 ∧ 0x80 ≤ s1 ∧ s1 ≤ 0xBF) :
    utf8DecodeRune (b :: s1 :: x) = (b % 32 * 64 + s1 % 64, 2) := by
  have hx := utf8First_two b ⟨h.1, h.2.1⟩
  have h1 : ¬ (s1 < 128 ∨ 191 < s1) := by omega
  simp [utf8DecodeRune, hx, utf8AcceptRange, h1]

theorem utf8DecodeRune_three (b s1 s2 : Nat) (x : Bytes)
    (h : 0xE1 ≤ b ∧ b < 0xED ∧ 0x80 ≤ s1 ∧ s1 ≤ 0xBF ∧ 0x80 ≤ s2 ∧ s2 ≤ 0xBF) :
    utf8DecodeRune (b :: s1 :: s2 :: x) = (b % 16 * 4096 + s1 % 64 * 64 + s2 % 64, 3) := by
  have hx := utf8First_three b ⟨h.1, h.2.1⟩
  have h1 : ¬ (s1 < 128 ∨ 191 < s1) := by omega
  have h2 : ¬ (s2 < 128 ∨ 191 < s2) := by omega
  simp [utf8DecodeRune, hx, utf8AcceptRange, h1, h2]

/-- A white space encoding at the head of `s` is what the decoder reads there. -/
theorem decode_at_space_start (e s : Bytes) (he : e ∈ spaceEncodings) (hp : e <+: s) :
    unicodeIsSpace (utf8DecodeRune s).1 = true ∧ (utf8DecodeRune s).2 = e.length := by
  obtain ⟨x, rfl⟩ := hp
  simp only [spaceEncodings, List.mem_cons, List.mem_singleton, List.not_mem_nil, or_false] at he
  rcases he with rfl | rfl | rfl | rfl | rfl | rfl | rfl | rfl | rfl | rfl | rfl | rfl | rfl |
    rfl | rfl | rfl | rfl | rfl | rfl | rfl | rfl | rfl | rfl | rfl | rfl <;>
  simp only [List.cons_append, List.nil_append] <;>
  first
  | (rw [utf8DecodeRune_ascii _ _ (by decide)]; decide)
  | (rw [utf8DecodeRune_two _ _ _ (by decide)]; decide)
  | (rw [utf8DecodeRune_three _ _ _ _ (by decide)]; decide)

/-- When the decoder reads a white space character, its encoding is at the head. -/
theorem space_prefix_of_decode (b : Nat) (t : Bytes)
    (h : unicodeIsSpace (utf8DecodeRune (b :: t)).1 = true) :
    ∃ e ∈ spaceEncodings, e <+: b :: t := by
  by_cases hb : b < 0x80
  · rw [utf8DecodeRune_ascii b t hb] at h
    have hr : b ≤ 0xFF := by omega
    simp only [unicodeIsSpace, hr, if_true, decide_eq_true_eq] at h
    refine ⟨[b], ?_, ⟨t, rfl⟩⟩
    rcases h with rfl | rfl | rfl | rfl | rfl | rfl | rfl | rfl <;> first | decide | omega
  · rcases utf8DecodeRune_cases b t (by omega) with he | ⟨s1, t', rfl, h1, h2, h3, h4, he⟩ |
      ⟨s1, s2, t', rfl, h1, h2, h3, h4, h5, h6, h7, h8, he⟩ |
      ⟨s1, s2, s3, t', rfl, h1, h2, h3, h4, h5, h6, h7, h8, h9, h10, he⟩
    · rw [he] at h
      exact absurd h (by decide)
    · rw [he] at h
      clear he
      simp only [unicodeIsSpace] at h
      by_cases hr : b % 32 * 64 + s1 % 64 ≤ 0xFF
      · simp only [hr, if_true, decide_eq_true_eq] at h
        have hc : (b = 0xC2 ∧ s1 = 0x85) ∨ (b = 0xC2 ∧ s1 = 0xA0) := by omega
        rcases hc with ⟨rfl, rfl⟩ | ⟨rfl, rfl⟩
        · exact ⟨[0xC2, 0x85], by decide, ⟨t', rfl⟩⟩
        · exact ⟨[0xC2, 0xA0], by decide, ⟨t', rfl⟩⟩
      · simp only [hr, if_false, decide_eq_true_eq] at h
        omega
    · rw [he] at h
      clear he
      simp only [unicodeIsSpace] at h
      have hr : ¬ b % 16 * 4096 + s1 % 64 * 64 + s2 % 64 ≤ 0xFF := by omega
      simp only [hr, if_false, decide_eq_true_eq] at h
      rcases h with h | ⟨hlo, hhi⟩ | h | h | h | h | h
      · have e1 : b = 0xE1 := by omega
        have e2 : s1 = 0x9A := by omega
        have e3 : s2 = 0x80 := by omega
        subst e1 e2 e3
        exact ⟨[0xE1, 0x9A, 0x80], by decide, ⟨t', rfl⟩⟩
      · have e1 : b = 0xE2 := by omega
        have e2 : s1 = 0x80 := by omega
        have e3 : 0x80 ≤ s2 ∧ s2 ≤ 0x8A := by omega
        subst e1 e2
        refine ⟨[0xE2, 0x80, s2], ?_, ⟨t', rfl⟩⟩
        obtain ⟨e4, e5⟩ := e3
        clear hlo hhi hr h1 h2 h3 h4 h5 h6 h7 h8
        interval_cases s2 <;> decide
      · have e1 : b = 0xE2 := by omega
        have e2 : s1 = 0x80 := by omega
        have e3 : s2 = 0xA8 := by omega
        subst e1 e2 e3
        exact ⟨[0xE2, 0x80, 0xA8], by decide, ⟨t', rfl⟩⟩
      · have e1 : b = 0xE2 := by omega
        have e2 : s1 = 0x80 := by omega
        have e3 : s2 = 0xA9 := by omega
        subst e1 e2 e3
        exact ⟨[0xE2, 0x80, 0xA9], by decide, ⟨t', rfl⟩⟩
      · have e1 : b = 0xE2 := by omega
        have e2 : s1 = 0x80 := by omega
        have e3 : s2 = 0xAF := by omega
        subst e1 e2 e3
        exact ⟨[0xE2, 0x80, 0xAF], by decide, ⟨t', rfl⟩⟩
      · have e1 : b = 0xE2 := by omega
        have e2 : s1 = 0x81 := by omega
        have e3 : s2 = 0x9F := by omega
        subst e1 e2 e3
        exact ⟨[0xE2, 0x81, 0x9F], by decide, ⟨t', rfl⟩⟩
      · have e1 : b = 0xE3 := by omega
        have e2 : s1 = 0x80 := by omega
        have e3 : s2 = 0x80 := by omega
        subst e1 e2 e3
        exact ⟨[0xE3, 0x80, 0x80], by decide, ⟨t', rfl⟩⟩
    · rw [he] at h
      clear he
      simp only [unicodeIsSpace] at h
      have hr : ¬ b % 8 * 262144 + s1 % 64 * 4096 + s2 % 64 * 64 + s3 % 64 ≤ 0xFF := by omega
      simp only [hr, if_false, decide_eq_true_eq] at h
      omega

theorem spaceEncodings_ne_nil (e : Bytes) (he : e ∈ spaceEncodings) : 1 ≤ e.length := by
  have : ∀ e ∈ spaceEncodings, 1 ≤ e.length := by decide
  exact this e he

theorem find_prefix_of_space (b : Nat) (t : Bytes)
    (h : unicodeIsSpace (utf8DecodeRune (b :: t)).1 = true) :
    ∃ e, spaceEncodings.find? (fun e => e.isPrefixOf (b :: t)) = some e ∧
      e.length = (utf8DecodeRune (b :: t)).2 := by
  obtain ⟨e, he, hp⟩ := space_prefix_of_decode b t h
  cases hf : spaceEncodings.find? (fun e => e.isPrefixOf (b :: t)) with
  | none =>
    rw [List.find?_eq_none] at hf
    have := hf e he
    simp [List.isPrefixOf_iff_prefix, hp] at this
  | some e' =>
    refine ⟨e', rfl, ?_⟩
    have hm := List.mem_of_find?_eq_some hf
    have hp' := List.find?_some hf
    simp only [List.isPrefixOf_iff_prefix] at hp'
    exact (decode_at_space_start e' _ hm hp').2.symm

theorem find_prefix_of_not_space (s : Bytes)
    (h : unicodeIsSpace (utf8DecodeRune s).1 = false) :
    spaceEncodings.find? (fun e => e.isPrefixOf s) = none := by
  rw [List.find?_eq_none]
  intro e he hp
  simp only [List.isPrefixOf_iff_prefix] at hp
  have := (decode_at_space_start e s he hp).1
  rw [h] at this
  exact Bool.noConfusion this

/-- `TrimLeftFunc(s, unicode.IsSpace)` strips the leading white space. -/
theorem trimLeftSpace_eq : ∀ (n : Nat) (s : Bytes), s.length ≤ n →
    trimLeftSpace n s = stripLeft n s := by
  intro n
  induction n with
  | zero =>
    intro s hlen
    have : s = [] := List.length_eq_zero.1 (Nat.le_zero.1 hlen)
    subst this
    rfl
  | succ n ih =>
    intro s hlen
    cases s with
    | nil => rfl
    | cons b t =>
      simp only [trimLeftSpace, stripLeft]
      cases hsp : unicodeIsSpace (utf8DecodeRune (b :: t)).1 with
      | true =>
        obtain ⟨e, hf, hl⟩ := find_prefix_of_space b t hsp
        have hw := utf8DecodeRune_width_pos b t
        simp only [hf, hl, if_true]
        apply ih
        simp only [List.length_drop, List.length_cons] at hlen ⊢
        omega
      | false =>
        simp [find_prefix_of_not_space _ hsp]

theorem getD_append_right_len (p e : Bytes) (i : Nat) :
    (p ++ e).getD (p.length + i) 0 = e.getD i 0 := by
  simp [List.getD_eq_getElem?_getD, List.getElem?_append_right]

theorem utf8DecodeLastRune_ascii (p : Bytes) (c : Nat) (h : c < 0x80) :
    utf8DecodeLastRune (p ++ [c]) = (c, 1) := by
  have h1 : (p ++ [c]).getD ((p ++ [c]).length - 1) 0 = c := by
    have := getD_append_right_len p [c] 0
    simp
  simp [utf8DecodeLastRune, h1, RuneSelf, h]

theorem utf8DecodeLastRune_two (p : Bytes) (b s1 : Nat)
    (h : 0xC2 ≤ b ∧ b < 0xE0 ∧ 0x80 ≤ s1 ∧ s1 ≤ 0xBF) :
    utf8DecodeLastRune (p ++ [b, s1]) = (b % 32 * 64 + s1 % 64, 2) := by
  have hl : (p ++ [b, s1]).length = p.length + 2 := by simp
  have h1 : (p ++ [b, s1]).getD (p.length + 1) 0 = s1 := getD_append_right_len p [b, s1] 1
  have h0 : (p ++ [b, s1]).getD p.length 0 = b := getD_append_right_len p [b, s1] 0
  have hs : utf8LastScan (p ++ [b, s1]) (p.length + 2 - 4) (p.length + 1) = p.length := by
    have hr : utf8RuneStart b = true := by
      simp only [utf8RuneStart, decide_eq_true_eq]
      omega
    simp only [utf8LastScan, h0, hr, if_true]
    rw [if_neg (by omega)]
  have hd : utf8DecodeRune ((p ++ [b, s1]).drop p.length) = (b % 32 * 64 + s1 % 64, 2) := by
    rw [List.drop_left]
    exact utf8DecodeRune_two b s1 [] h
  have h2 : ¬ s1 < RuneSelf := by simp only [RuneSelf]; omega
  simp only [utf8DecodeLastRune, hl, Nat.add_sub_cancel, h1, h2, if_false]
  have h3 : p.length + 2 - 1 = p.length + 1 := by omega
  simp only [h3, h1, h2, if_false, hs, hd]
  simp

theorem utf8DecodeLastRune_three (p : Bytes) (b s1 s2 : Nat)
    (h : 0xE1 ≤ b ∧ b < 0xED ∧ 0x80 ≤ s1 ∧ s1 ≤ 0xBF ∧ 0x80 ≤ s2 ∧ s2 ≤ 0xBF) :
    utf8DecodeLastRune (p ++ [b, s1, s2]) = (b % 16 * 4096 + s1 % 64 * 64 + s2 % 64, 3) := by
  have hl : (p ++ [b, s1, s2]).length = p.length + 3 := by simp
  have h2' : (p ++ [b, s1, s2]).getD (p.length + 2) 0 = s2 :=
    getD_append_right_len p [b, s1, s2] 2
  have h1 : (p ++ [b, s1, s2]).getD (p.length + 1) 0 = s1 :=
    getD_append_right_len p [b, s1, s2] 1
  have h0 : (p ++ [b, s1, s2]).getD p.length 0 = b := getD_append_right_len p [b, s1, s2] 0
  have hs : utf8LastScan (p ++ [b, s1, s2]) (p.length + 3 - 4) (p.length + 2) = p.length := by
    have hr : utf8RuneStart b = true := by
      simp only [utf8RuneStart, decide_eq_true_eq]
      omega
    have hr1 : utf8RuneStart s1 = false := by
      simp only [utf8RuneStart, decide_eq_false_iff_not, not_not]
      omega
    simp only [utf8LastScan, h0, h1, hr, hr1, if_true]
    rw [if_neg (by omega)]
    simp only [Bool.false_eq_true, if_false]
    rw [if_neg (by omega)]
  have hd : utf8DecodeRune ((p ++ [b, s1, s2]).drop p.length) =
      (b % 16 * 4096 + s1 % 64 * 64 + s2 % 64, 3) := by
    rw [List.drop_left]
    exact utf8DecodeRune_three b s1 s2 [] h
  have hc : ¬ s2 < RuneSelf := by simp only [RuneSelf]; omega
  have h3 : p.length + 3 - 1 = p.length + 2 := by omega
  simp only [utf8DecodeLastRune, hl, h3, h2', hc, if_false, hs, hd]
  simp

/-- A white space encoding at the end of `x` is what the backward decoder reads there. -/
theorem decodeLast_of_space_suffix (e x : Bytes) (he : e ∈ spaceEncodings) (hp : e <:+ x) :
    unicodeIsSpace (utf8DecodeLastRune x).1 = true ∧ (utf8DecodeLastRune x).2 = e.length := by
  obtain ⟨p, rfl⟩ := hp
  simp only [spaceEncodings, List.mem_cons, List.mem_singleton, List.not_mem_nil, or_false] at he
  rcases he with rfl | rfl | rfl | rfl | rfl | rfl | rfl | rfl | rfl | rfl | rfl | rfl | rfl |
    rfl | rfl | rfl | rfl | rfl | rfl | rfl | rfl | rfl | rfl | rfl | rfl <;>
  first
  | (rw [utf8DecodeLastRune_ascii _ _ (by decide)]; decide)
  | (rw [utf8DecodeLastRune_two _ _ _ (by decide)]; decide)
  | (rw [utf8DecodeLastRune_three _ _ _ _ (by decide)]; decide)

theorem unicodeIsSpace_ascii (c : Nat) (hc : c < 0x80) (h : unicodeIsSpace c = true) :
    [c] ∈ spaceEncodings := by
  have hr : c ≤ 0xFF := by omega
  simp only [unicodeIsSpace, hr, if_true, decide_eq_true_eq] at h
  rcases h with rfl | rfl | rfl | rfl | rfl | rfl | rfl | rfl <;> first | decide | omega

/-- When the backward decoder reads a white space character, its encoding is at the
end. -/
theorem space_suffix_of_decodeLast (x : Bytes)
    (h : unicodeIsSpace (utf8DecodeLastRune x).1 = true) :
    ∃ e ∈ spaceEncodings, e <:+ x := by
  unfold utf8DecodeLastRune at h
  by_cases h0 : x.length = 0
  · rw [if_pos h0] at h
    exact absurd h (by decide)
  · rw [if_neg h0] at h
    have hne : x ≠ [] := fun hx => h0 (by rw [hx]; rfl)
    simp only [] at h
    by_cases hc : x.getD (x.length - 1) 0 < RuneSelf
    · rw [if_pos hc] at h
      refine ⟨[x.getD (x.length - 1) 0], unicodeIsSpace_ascii _ hc h, ?_⟩
      refine ⟨x.dropLast, ?_⟩
      have h1 := List.dropLast_append_getLast hne
      have h2 : x.getLast hne = x.getD (x.length - 1) 0 := by
        rw [List.getLast_eq_getElem, List.getD_eq_getElem?_getD, List.getElem?_eq_getElem]
        rfl
      rw [← h2]
      exact h1
    · rw [if_neg hc] at h
      split_ifs at h with hs
      · exact absurd h (by decide)
      · simp only [ne_eq, not_not] at hs
        generalize hst : utf8LastScan x (x.length - 4) (x.length - 1) = start at h hs
        cases hd : x.drop start with
        | nil =>
          rw [hd] at h
          exact absurd h (by decide)
        | cons b t =>
          rw [hd] at h hs
          obtain ⟨e, he, hp⟩ := space_prefix_of_decode b t h
          have hl := (decode_at_space_start e _ he hp).2
          have hlen : (b :: t).length = x.length - start := by
            rw [← hd, List.length_drop]
          have heq : e = b :: t := by
            apply List.IsPrefix.eq_of_length hp
            rw [hlen, ← hl]
            omega
          refine ⟨e, he, ?_⟩
          rw [heq, ← hd]
          exact List.drop_suffix _ _

theorem utf8DecodeRune_three_gen (b s1 s2 : Nat) (x : Bytes)
    (h : 0xE0 ≤ b ∧ b < 0xF0 ∧ (b = 0xE0 → 0xA0 ≤ s1) ∧ (b = 0xED → s1 ≤ 0x9F) ∧
      0x80 ≤ s1 ∧ s1 ≤ 0xBF ∧ 0x80 ≤ s2 ∧ s2 ≤ 0xBF) :
    utf8DecodeRune (b :: s1 :: s2 :: x) = (b % 16 * 4096 + s1 % 64 * 64 + s2 % 64, 3) := by
  obtain ⟨h1, h2, h3, h4, h5, h6, h7, h8⟩ := h
  have hs2 : ¬ (s2 < 128 ∨ 191 < s2) := by omega
  rcases utf8First_cases b (by omega) with hx | ⟨hx, hb⟩ | ⟨hx, hb⟩ | ⟨hx, hb⟩ | ⟨hx, hb⟩ |
    ⟨hx, hb⟩ | ⟨hx, hb⟩ | ⟨hx, hb⟩
  · exfalso
    unfold utf8First at hx
    rw [if_neg (by omega), if_neg (by omega), if_neg (by omega)] at hx
    split_ifs at hx <;> omega
  · omega
  · have hs1 : ¬ (s1 < 160 ∨ 191 < s1) := by have := h3 hb; omega
    simp [utf8DecodeRune, hx, utf8AcceptRange, hs1, hs2]
  · have hs1 : ¬ (s1 < 128 ∨ 191 < s1) := by omega
    simp [utf8DecodeRune, hx, utf8AcceptRange, hs1, hs2]
  · have hs1 : ¬ (s1 < 128 ∨ 159 < s1) := by have := h4 hb; omega
    simp [utf8DecodeRune, hx, utf8AcceptRange, hs1, hs2]
  · omega
  · omega
  · omega

theorem utf8DecodeRune_four_gen (b s1 s2 s3 : Nat) (x : Bytes)
    (h : 0xF0 ≤ b ∧ b ≤ 0xF4 ∧ (b = 0xF0 → 0x90 ≤ s1) ∧ (b = 0xF4 → s1 ≤ 0x8F) ∧
      0x80 ≤ s1 ∧ s1 ≤ 0xBF ∧ 0x80 ≤ s2 ∧ s2 ≤ 0xBF ∧ 0x80 ≤ s3 ∧ s3 ≤ 0xBF) :
    utf8DecodeRune (b :: s1 :: s2 :: s3 :: x) =
      (b % 8 * 262144 + s1 % 64 * 4096 + s2 % 64 * 64 + s3 % 64, 4) := by
  obtain ⟨h1, h2, h3, h4, h5, h6, h7, h8, h9, h10⟩ := h
  have hs2 : ¬ (s2 < 128 ∨ 191 < s2) := by omega
  have hs3 : ¬ (s3 < 128 ∨ 191 < s3) := by omega
  rcases utf8First_cases b (by omega) with hx | ⟨hx, hb⟩ | ⟨hx, hb⟩ | ⟨hx, hb⟩ | ⟨hx, hb⟩ |
    ⟨hx, hb⟩ | ⟨hx, hb⟩ | ⟨hx, hb⟩
  · exfalso
    unfold utf8First at hx
    rw [if_neg (by omega), if_neg (by omega), if_neg (by omega), if_neg (by omega),
      if_neg (by omega), if_neg (by omega), if_neg (by omega)] at hx
    split_ifs at hx <;> omega
  · omega
  · omega
  · omega
  · omega
  · have hs1 : ¬ (s1 < 144 ∨ 191 < s1) := by have := h3 hb; omega
    simp [utf8DecodeRune, hx, utf8AcceptRange, hs1, hs2, hs3]
  · have hs1 : ¬ (s1 < 128 ∨ 191 < s1) := by omega
    simp [utf8DecodeRune, hx, utf8AcceptRange, hs1, hs2, hs3]
  · have hs1 : ¬ (s1 < 128 ∨ 143 < s1) := by have := h4 hb; omega
    simp [utf8DecodeRune, hx, utf8AcceptRange, hs1, hs2, hs3]

/-- A byte outside ASCII followed by no continuation byte is an invalid byte of width 1. -/
theorem utf8DecodeRune_width_one (c : Nat) (w : Bytes) (hc : 0x80 ≤ c)
    (hw : ∀ c', w.head? = some c' → c' < 0x80 ∨ 0xC0 ≤ c') :
    (utf8DecodeRune (c :: w)).2 = 1 := by
  rcases utf8DecodeRune_cases c w hc with he | ⟨s1, t', rfl, _, _, h3, h4, _⟩ |
    ⟨s1, s2, t', rfl, _, _, _, _, h3, h4, _⟩ |
    ⟨s1, s2, s3, t', rfl, _, _, _, _, h3, h4, _⟩
  · rw [he]
  · have := hw s1 rfl
    omega
  · have := hw s1 rfl
    omega
  · have := hw s1 rfl
    omega

/-- A step of the decoder that consumes all of `u` reads the same width when more
input follows, provided that input does not begin with a continuation byte. -/
theorem utf8DecodeRune_append_width (b : Nat) (t w : Bytes) (hb : 0x80 ≤ b)
    (hk : (utf8DecodeRune (b :: t)).2 = (b :: t).length)
    (hw : ∀ c', w.head? = some c' → c' < 0x80 ∨ 0xC0 ≤ c') :
    (utf8DecodeRune ((b :: t) ++ w)).2 = (b :: t).length := by
  rcases utf8DecodeRune_cases b t hb with he | ⟨s1, t', rfl, h1, h2, h3, h4, he⟩ |
    ⟨s1, s2, t', rfl, h1, h2, h3, h4, h5, h6, h7, h8, he⟩ |
    ⟨s1, s2, s3, t', rfl, h1, h2, h3, h4, h5, h6, h7, h8, h9, h10, he⟩
  · rw [he] at hk
    have ht : t = [] := by
      simp only [List.length_cons] at hk
      exact List.length_eq_zero.1 (by omega)
    subst ht
    exact utf8DecodeRune_width_one b w hb hw
  · rw [he] at hk
    have ht : t' = [] := by
      simp only [List.length_cons] at hk
      exact List.length_eq_zero.1 (by omega)
    subst ht
    simp only [List.cons_append, List.nil_append]
    rw [utf8DecodeRune_two b s1 w ⟨h1, h2, h3, h4⟩]
    rfl
  · rw [he] at hk
    have ht : t' = [] := by
      simp only [List.length_cons] at hk
      exact List.length_eq_zero.1 (by omega)
    subst ht
    simp only [List.cons_append, List.nil_append]
    rw [utf8DecodeRune_three_gen b s1 s2 w ⟨h1, h2, h3, h4, h5, h6, h7, h8⟩]
    rfl
  · rw [he] at hk
    have ht : t' = [] := by
      simp only [List.length_cons] at hk
      exact List.length_eq_zero.1 (by omega)
    subst ht
    simp only [List.cons_append, List.nil_append]
    rw [utf8DecodeRune_four_gen b s1 s2 s3 w ⟨h1, h2, h3, h4, h5, h6, h7, h8, h9, h10⟩]
    rfl

theorem utf8LastScan_le (x : Bytes) (lim : Nat) : ∀ k, utf8LastScan x lim k ≤ k - 1 := by
  intro k
  induction k with
  | zero => simp [utf8LastScan]
  | succ k ih =>
    simp only [utf8LastScan]
    split_ifs
    · simp
    · simp
    · simp only [Nat.add_sub_cancel]
      omega

theorem getD_take_lt (s : Bytes) (i j : Nat) (h : j < i) :
    (s.take i).getD j 0 = s.getD j 0 := by
  simp [List.getD_eq_getElem?_getD, List.getElem?_take, h]

theorem drop_take_append_drop (s : Bytes) (a i : Nat) (h : a ≤ i) :
    (s.take i).drop a ++ s.drop i = s.drop a := by
  by_cases hi : i ≤ s.length
  · have hl : (List.take i s).length = i := by simp [hi]
    conv_rhs => rw [← List.take_append_drop i s]
    rw [List.drop_append_eq_append_drop, hl, Nat.sub_eq_zero_of_le h, List.drop_zero]
  · have hi' : s.length ≤ i := by omega
    rw [List.drop_eq_nil_of_le hi', List.take_of_length_le hi', List.append_nil]

theorem utf8DecodeLastRune_eq (x : Bytes) (hx : 0 < x.length) :
    utf8DecodeLastRune x =
      if x.getD (x.length - 1) 0 < RuneSelf then (x.getD (x.length - 1) 0, 1)
      else if utf8LastScan x (x.length - 4) (x.length - 1) +
          (utf8DecodeRune (x.drop (utf8LastScan x (x.length - 4) (x.length - 1)))).2 ≠ x.length
        then (RuneError, 1)
      else utf8DecodeRune (x.drop (utf8LastScan x (x.length - 4) (x.length - 1))) := by
  unfold utf8DecodeLastRune
  rw [if_neg (by omega)]

/-- The index where `TrimRightFunc` cuts: going back over the last rune of `s[:i]` and
forward again over the rune found there ends at `i`, when what follows `s[:i]` does not
begin with a continuation byte. -/
theorem decodeLast_stop (s : Bytes) (i : Nat) (h0 : 0 < i) (hi : i ≤ s.length)
    (hw : ∀ c', (s.drop i).head? = some c' → c' < 0x80 ∨ 0xC0 ≤ c') :
    (if RuneSelf ≤ s.getD (i - (utf8DecodeLastRune (s.take i)).2) 0 then
        i - (utf8DecodeLastRune (s.take i)).2 +
          (utf8DecodeRune (s.drop (i - (utf8DecodeLastRune (s.take i)).2))).2
      else i - (utf8DecodeLastRune (s.take i)).2 + 1) = i := by
  have hlen : (s.take i).length = i := by simp [hi]
  have hlast : (s.take i).getD (i - 1) 0 = s.getD (i - 1) 0 := getD_take_lt s i (i - 1) (by omega)
  have hdrop1 : s.drop (i - 1) = s.getD (i - 1) 0 :: s.drop i := by
    have h1 : i - 1 < s.length := by omega
    rw [List.drop_eq_getElem_cons h1, List.getD_eq_getElem?_getD, List.getElem?_eq_getElem h1]
    simp only [Option.getD_some]
    congr 2
    omega
  have hval := utf8DecodeLastRune_eq (s.take i) (by omega)
  rw [hlen, hlast] at hval
  by_cases hc : s.getD (i - 1) 0 < RuneSelf
  · rw [if_pos hc] at hval
    rw [hval]
    simp only []
    rw [if_neg (by omega)]
    omega
  · rw [if_neg hc] at hval
    have hc' : 0x80 ≤ s.getD (i - 1) 0 := by simp only [RuneSelf] at hc; omega
    have hone : (utf8DecodeRune (s.drop (i - 1))).2 = 1 := by
      rw [hdrop1]
      exact utf8DecodeRune_width_one _ _ hc' hw
    generalize hst : utf8LastScan (s.take i) (i - 4) (i - 1) = start at hval
    have hsl : start ≤ i - 1 - 1 := by
      rw [← hst]
      exact utf8LastScan_le _ _ _
    by_cases hm : start + (utf8DecodeRune ((s.take i).drop start)).2 ≠ i
    · rw [if_pos hm] at hval
      rw [hval]
      simp only []
      rw [if_pos (by simp only [RuneSelf]; omega), hone]
      omega
    · rw [if_neg hm] at hval
      rw [hval]
      simp only [ne_eq, not_not] at hm
      have hsi : start < i := by omega
      have hul : ((s.take i).drop start).length = i - start := by
        rw [List.length_drop, hlen]
      cases hu : (s.take i).drop start with
      | nil =>
        rw [hu] at hul
        simp only [List.length_nil] at hul
        omega
      | cons b t =>
        rw [hu] at hm hul
        have hds : s.drop start = (b :: t) ++ s.drop i := by
          rw [← hu]
          exact (drop_take_append_drop s start i (by omega)).symm
        have hj : i - (utf8DecodeRune (b :: t)).2 = start := by omega
        have hb : s.getD start 0 = b := by
          have : (s.drop start).getD 0 0 = b := by rw [hds]; rfl
          rw [← this, List.getD_eq_getElem?_getD, List.getD_eq_getElem?_getD, List.getElem?_drop]
          rfl
        rw [hj, hb, hds]
        by_cases hb8 : b < 0x80
        · exfalso
          rw [utf8DecodeRune_ascii b t hb8] at hm
          simp only [] at hm
          have hs1 : start = i - 1 := by omega
          rw [hs1] at hb
          omega
        · rw [if_pos (by simp only [RuneSelf]; omega)]
          rw [utf8DecodeRune_append_width b t _ (by omega) (by rw [hul]; omega) hw]
          rw [hul]
          omega

theorem find_suffix_of_space (x : Bytes)
    (h : unicodeIsSpace (utf8DecodeLastRune x).1 = true) :
    ∃ e, spaceEncodings.find? (fun e => e.isSuffixOf x) = some e ∧
      e.length = (utf8DecodeLastRune x).2 ∧ e ∈ spaceEncodings ∧ e <:+ x := by
  obtain ⟨e, he, hp⟩ := space_suffix_of_decodeLast x h
  cases hf : spaceEncodings.find? (fun e => e.isSuffixOf x) with
  | none =>
    rw [List.find?_eq_none] at hf
    have := hf e he
    simp [List.isSuffixOf_iff_suffix, hp] at this
  | some e' =>
    have hm := List.mem_of_find?_eq_some hf
    have hp' := List.find?_some hf
    simp only [List.isSuffixOf_iff_suffix] at hp'
    exact ⟨e', rfl, (decodeLast_of_space_suffix e' _ hm hp').2.symm, hm, hp'⟩

theorem find_suffix_of_not_space (x : Bytes)
    (h : unicodeIsSpace (utf8DecodeLastRune x).1 = false) :
    spaceEncodings.find? (fun e => e.isSuffixOf x) = none := by
  rw [List.find?_eq_none]
  intro e he hp
  simp only [List.isSuffixOf_iff_suffix] at hp
  have := (decodeLast_of_space_suffix e x he hp).1
  rw [h] at this
  exact Bool.noConfusion this

theorem find_suffix_nil : spaceEncodings.find? (fun e => e.isSuffixOf []) = none := by
  decide

theorem find_suffix_length (x e : Bytes)
    (h : spaceEncodings.find? (fun e => e.isSuffixOf x) = some e) :
    1 ≤ e.length ∧ e.length ≤ x.length := by
  have hm := List.mem_of_find?_eq_some h
  have hp := List.find?_some h
  simp only [List.isSuffixOf_iff_suffix] at hp
  exact ⟨spaceEncodings_ne_nil e hm, hp.length_le⟩

/-- The fuel of `stripRight` does not matter once it covers the length. -/
theorem stripRight_fuel : ∀ (n m : Nat) (x : Bytes), x.length ≤ n → x.length ≤ m →
    stripRight n x = stripRight m x := by
  intro n
  induction n with
  | zero =>
    intro m x hn _
    have : x = [] := List.length_eq_zero.1 (Nat.le_zero.1 hn)
    subst this
    cases m with
    | zero => rfl
    | succ m => simp [stripRight, find_suffix_nil]
  | succ n ih =>
    intro m x hn hm
    cases m with
    | zero =>
      have : x = [] := List.length_eq_zero.1 (Nat.le_zero.1 hm)
      subst this
      simp [stripRight, find_suffix_nil]
    | succ m =>
      simp only [stripRight]
      cases hf : spaceEncodings.find? (fun e => e.isSuffixOf x) with
      | none => rfl
      | some e =>
        have hl := find_suffix_length x e hf
        simp only []
        apply ih
        · simp only [List.length_take]
          omega
        · simp only [List.length_take]
          omega

theorem spaceEncodings_head (e : Bytes) (he : e ∈ spaceEncodings) :
    ∀ (w : Bytes) (c' : Nat), (e ++ w).head? = some c' → c' < 0x80 ∨ 0xC0 ≤ c' := by
  have : ∀ e ∈ spaceEncodings,
      e.head?.map (fun c => decide (c < 0x80 ∨ 0xC0 ≤ c)) = some true := by decide
  have hh := this e he
  intro w c' h
  cases e with
  | nil => simp at hh
  | cons c t =>
    simp only [List.head?_cons, Option.map_some', Option.some.injEq, decide_eq_true_eq] at hh
    simp only [List.cons_append, List.head?_cons, Option.some.injEq] at h
    omega

theorem trimRightSpace_loop (s : Bytes) : ∀ (fuel i : Nat), i ≤ s.length → i < fuel →
    (∀ c', (s.drop i).head? = some c' → c' < 0x80 ∨ 0xC0 ≤ c') →
    trimRightCut s (lastIndexNotSpace s fuel i) = stripRight i (s.take i) := by
  intro fuel
  induction fuel with
  | zero =>
    intro i _ hf _
    omega
  | succ fuel ih =>
    intro i hi hf hw
    simp only [lastIndexNotSpace]
    by_cases h0 : i = 0
    · subst h0
      simp [trimRightCut, stripRight]
    · rw [if_neg h0]
      have hlen : (s.take i).length = i := by simp [hi]
      obtain ⟨k, rfl⟩ : ∃ k, i = k + 1 := ⟨i - 1, by omega⟩
      cases hsp : unicodeIsSpace (utf8DecodeLastRune (s.take (k + 1))).1 with
      | true =>
        obtain ⟨e, hfind, hel, hem, hsuf⟩ := find_suffix_of_space _ hsp
        have hl := find_suffix_length _ e hfind
        rw [hlen] at hl
        simp only [if_true, stripRight, hfind, hlen]
        rw [← hel]
        have htt : List.take (k + 1 - e.length) (List.take (k + 1) s) =
            List.take (k + 1 - e.length) s := by
          rw [List.take_take]
          congr 1
          omega
        rw [htt, stripRight_fuel k (k + 1 - e.length) _ (by simp only [List.length_take]; omega)
          (by simp only [List.length_take]; omega)]
        apply ih
        · omega
        · omega
        · obtain ⟨p, hp⟩ := hsuf
          have hpl : p.length = k + 1 - e.length := by
            have := congrArg List.length hp
            simp only [List.length_append, hlen] at this
            omega
          have hs : s = p ++ (e ++ s.drop (k + 1)) := by
            rw [← List.append_assoc, hp, List.take_append_drop]
          have hd : s.drop (k + 1 - e.length) = e ++ s.drop (k + 1) := by
            conv_lhs => rw [hs]
            rw [← hpl, List.drop_left]
          rw [hd]
          exact spaceEncodings_head e hem _
      | false =>
        simp only [Bool.false_eq_true, if_false, stripRight,
          find_suffix_of_not_space _ hsp, trimRightCut]
        have hstop := decodeLast_stop s (k + 1) (by omega) hi hw
        split_ifs at hstop ⊢ with hc
        · rw [hstop]
        · rw [hstop]

/-- `TrimRightFunc(s, unicode.IsSpace)` strips the trailing white space. -/
theorem trimRightSpace_eq (s : Bytes) : trimRightSpace s = stripRight s.length s := by
  have h := trimRightSpace_loop s (s.length + 1) s.length (le_refl _) (by omega)
    (by simp)
  rw [List.take_length] at h
  rw [← h]
  rfl

theorem unicodeIsSpace_of_ascii (c : Nat) (hc : c < 0x80) :
    unicodeIsSpace c = asciiSpace c := by
  have hr : c ≤ 0xFF := by omega
  simp only [unicodeIsSpace, asciiSpace, hr, if_true]
  congr 1
  apply propext
  constructor
  · rintro (h | h | h | h | h | h | h | h) <;> omega
  · rintro (h | h | h | h | h | h) <;> omega

theorem utf8DecodeLastRune_take_ascii (u : Bytes) (k : Nat) (hk : k < u.length)
    (hc : u.getD k 0 < 0x80) :
    utf8DecodeLastRune (u.take (k + 1)) = (u.getD k 0, 1) := by
  have hlen : (u.take (k + 1)).length = k + 1 := by simp; omega
  have hval := utf8DecodeLastRune_eq (u.take (k + 1)) (by omega)
  have hc' : u.getD k 0 < RuneSelf := hc
  rw [hlen, Nat.add_sub_cancel, getD_take_lt u (k + 1) k (by omega), if_pos hc'] at hval
  exact hval

/-- The second loop of `strings.TrimSpace` strips the trailing white space. -/
theorem trimSpaceStop_eq (u : Bytes) : ∀ k, k ≤ u.length →
    trimSpaceStop u k = stripRight k (u.take k) := by
  intro k
  induction k with
  | zero =>
    intro _
    simp [trimSpaceStop, stripRight]
  | succ k ih =>
    intro hk
    have hlen : (u.take (k + 1)).length = k + 1 := by simp; omega
    simp only [trimSpaceStop]
    by_cases hc : RuneSelf ≤ u.getD k 0
    · rw [if_pos hc, trimRightSpace_eq, hlen]
    · rw [if_neg hc]
      have hc' : u.getD k 0 < 0x80 := by simp only [RuneSelf] at hc; omega
      have hd := utf8DecodeLastRune_take_ascii u k (by omega) hc'
      cases hsp : asciiSpace (u.getD k 0) with
      | true =>
        have hu : unicodeIsSpace (utf8DecodeLastRune (u.take (k + 1))).1 = true := by
          rw [hd, unicodeIsSpace_of_ascii _ hc', hsp]
        obtain ⟨e, hfind, hel, _, _⟩ := find_suffix_of_space _ hu
        rw [hd] at hel
        simp only [if_true, stripRight, hfind, hlen, hel, Nat.add_sub_cancel]
        rw [List.take_take, ih (by omega)]
        congr 2
        omega
      | false =>
        have hu : unicodeIsSpace (utf8DecodeLastRune (u.take (k + 1))).1 = false := by
          rw [hd, unicodeIsSpace_of_ascii _ hc', hsp]
        simp only [Bool.false_eq_true, if_false, stripRight, find_suffix_of_not_space _ hu]

/-- Refinement: Go's `strings.TrimSpace` computes `trimSpec`, the string with all leading
and trailing white space removed. -/
theorem stringsTrimSpace_eq_trimSpec (t : Bytes) : stringsTrimSpace t = trimSpec t := by
  induction t with
  | nil => rfl
  | cons c t ih =>
    simp only [stringsTrimSpace]
    by_cases hc : RuneSelf ≤ c
    · rw [if_pos hc, trimRightSpace_eq, trimLeftSpace_eq _ _ (le_refl _)]
      rfl
    · rw [if_neg hc]
      have hc' : c < 0x80 := by simp only [RuneSelf] at hc; omega
      have hd := utf8DecodeRune_ascii c t hc'
      cases hsp : asciiSpace c with
      | true =>
        have hu : unicodeIsSpace (utf8DecodeRune (c :: t)).1 = true := by
          rw [hd, unicodeIsSpace_of_ascii _ hc', hsp]
        obtain ⟨e, hfind, hel⟩ := find_prefix_of_space c t hu
        rw [hd] at hel
        simp only [if_true, ih, trimSpec, List.length_cons, stripLeft, hfind, hel,
          List.drop_succ_cons, List.drop_zero]
      | false =>
        have hu : unicodeIsSpace (utf8DecodeRune (c :: t)).1 = false := by
          rw [hd, unicodeIsSpace_of_ascii _ hc', hsp]
        simp only [Bool.false_eq_true, if_false, trimSpec, List.length_cons, stripLeft,
          find_prefix_of_not_space _ hu]
        have h := trimSpaceStop_eq (c :: t) (c :: t).length (le_refl _)
        rw [List.take_length] at h
        exact h

theorem stripLeft_append_space (n : Nat) (e rest : Bytes) (he : e ∈ spaceEncodings) :
    stripLeft (n + 1) (e ++ rest) = stripLeft n rest := by
  have hp : e <+: e ++ rest := List.prefix_append e rest
  have hd := decode_at_space_start e _ he hp
  have hne := spaceEncodings_ne_nil e he
  cases hx : e ++ rest with
  | nil =>
    have := congrArg List.length hx
    simp only [List.length_append, List.length_nil] at this
    omega
  | cons b t =>
    rw [hx] at hd
    obtain ⟨e', hfind, hel⟩ := find_prefix_of_space b t hd.1
    simp only [stripLeft, hfind]
    rw [hel, hd.2, ← hx, List.drop_left]

/-- A string made of white space only is trimmed to the empty string. -/
theorem trimSpec_spaces (l : List Bytes) (hl : ∀ e ∈ l, e ∈ spaceEncodings) :
    trimSpec l.flatten = [] := by
  have h : ∀ (l : List Bytes) (n : Nat), (∀ e ∈ l, e ∈ spaceEncodings) → l.length ≤ n →
      stripLeft n l.flatten = [] := by
    intro l
    induction l with
    | nil =>
      intro n _ _
      cases n with
      | zero => rfl
      | succ n => rfl
    | cons e l ih =>
      intro n hl hn
      cases n with
      | zero => simp at hn
      | succ n =>
        rw [List.flatten_cons, stripLeft_append_space n e _ (hl e (by simp))]
        exact ih n (fun e he => hl e (by simp [he])) (by simpa using hn)
  have hlen : l.length ≤ l.flatten.length := by
    clear h
    induction l with
    | nil => simp
    | cons e l ih =>
      have := spaceEncodings_ne_nil e (hl e (by simp))
      have := ih (fun e he => hl e (by simp [he]))
      simp only [List.flatten_cons, List.length_append, List.length_cons]
      omega
  simp only [trimSpec, h l _ hl hlen]
  rfl

/-! ## Claims on `performOCRFromBytes` -/

theorem performOCRFromBytes_calls (eng : Engine) (imageBytes : Bytes) :
    (performOCRFromBytes eng imageBytes).2 =
      [EngineOp.newClient] ++ ocrConfig ++ [EngineOp.setImageFromBytes imageBytes] ++
        (if (eng.setImage imageBytes).isSome then [] else [EngineOp.text]) ++
        [EngineOp.close] := by
  unfold performOCRFromBytes withDeferred
  cases h1 : eng.setImage imageBytes with
  | some err => simp
  | none =>
    cases h2 : eng.text imageBytes with
    | error err => simp
    | ok t => simp

/-- C10: on every exit path of `performOCRFromBytes` (image rejected, text extraction
failed, success) the calls on the engine are `NewClient`, the configuration calls,
`SetImageFromBytes`, then `Text` unless the image was rejected, and `Close` last; one
session is created and it is released exactly once. -/
theorem performOCRFromBytes_trace (eng : Engine) (imageBytes : Bytes) :
    (performOCRFromBytes eng imageBytes).2 =
      [EngineOp.newClient] ++ ocrConfig ++ [EngineOp.setImageFromBytes imageBytes] ++
        (if (eng.setImage imageBytes).isSome then [] else [EngineOp.text]) ++
        [EngineOp.close] ∧
    (performOCRFromBytes eng imageBytes).2.count EngineOp.newClient = 1 ∧
    (performOCRFromBytes eng imageBytes).2.count EngineOp.close = 1 ∧
    (performOCRFromBytes eng imageBytes).2.getLast? = some EngineOp.close := by
  have hshape := performOCRFromBytes_calls eng imageBytes
  refine ⟨hshape, ?_, ?_, ?_⟩
  · rw [hshape]
    cases eng.setImage imageBytes <;> simp [ocrConfig, List.count_cons]
  · rw [hshape]
    cases eng.setImage imageBytes <;> simp [ocrConfig, List.count_cons]
  · rw [hshape, List.getLast?_append]
    rfl

/-! ## The paths of `uploadHandler` -/

theorem headerGet_jsonHeader :
    headerGet jsonHeader (lit "Content-Type") = some (lit "application/json") := by decide

theorem write_after_writeHeader (world : World) (code : Nat) (data : Bytes) :
    ((ResponseWriter.fresh.headerSet (lit "Content-Type")
      (lit "application/json")).writeHeader code).write world data = responded code data := by
  have h := headerGet_jsonHeader
  simp only [jsonHeader] at h
  simp [ResponseWriter.write, ResponseWriter.writeHeader, ResponseWriter.headerSet,
    ResponseWriter.fresh, responded, jsonHeader, h]

theorem write_without_writeHeader (world : World) (data : Bytes) :
    (ResponseWriter.fresh.headerSet (lit "Content-Type")
      (lit "application/json")).write world data =
      ⟨jsonHeader, some (200, jsonHeader), data, [], [data]⟩ := by
  have h := headerGet_jsonHeader
  simp only [jsonHeader] at h
  simp [ResponseWriter.write, ResponseWriter.headerSet, ResponseWriter.fresh, jsonHeader, h]

theorem uploadHandler_not_post (tbl : Nat → Nat) (world : World) (r : Request)
    (hm : r.method ≠ lit "POST") :
    uploadHandler tbl world r =
      ⟨httpRedirect world ResponseWriter.fresh r.method (lit "/") 303, []⟩ := by
  simp [uploadHandler, hm]

theorem uploadHandler_parse_error (tbl : Nat → Nat) (world : World) (r : Request) (e : String)
    (hm : r.method = lit "POST") (hp : parseMultipartForm world r (3 <<< 20) = .error e) :
    uploadHandler tbl world r =
      ⟨responded 400 (lit "\x7b\"error\": \"File too large or invalid form data\"\x7d"),
        [Event.parseMultipartForm (3 <<< 20)]⟩ := by
  simp only [uploadHandler, hm, ne_eq, not_true_eq_false, if_false, hp, write_after_writeHeader]

theorem uploadHandler_missing_file (tbl : Nat → Nat) (world : World) (r : Request)
    (files : List (Bytes × FileHeader)) (e : String)
    (hm : r.method = lit "POST") (hp : parseMultipartForm world r (3 <<< 20) = .ok files)
    (hf : formFile world files (lit "image") = .error e) :
    uploadHandler tbl world r =
      ⟨responded 400 (lit "\x7b\"error\": \"No file uploaded or invalid file\"\x7d"),
        [Event.parseMultipartForm (3 <<< 20), Event.formFile (lit "image")]⟩ := by
  simp only [uploadHandler, hm, ne_eq, not_true_eq_false, if_false, hp, hf,
    write_after_writeHeader, List.cons_append, List.nil_append]

theorem uploadHandler_invalid_type (tbl : Nat → Nat) (world : World) (r : Request)
    (files : List (Bytes × FileHeader)) (header : FileHeader)
    (hm : r.method = lit "POST") (hp : parseMultipartForm world r (3 <<< 20) = .ok files)
    (hf : formFile world files (lit "image") = .ok header)
    (hx : isValidImageType tbl header.filename = false) :
    uploadHandler tbl world r =
      ⟨responded 400 (lit
        "\x7b\"error\": \"Please upload a valid image file (PNG, JPG, JPEG, GIF, BMP)\"\x7d"),
        [Event.parseMultipartForm (3 <<< 20), Event.formFile (lit "image"),
          Event.fileClose]⟩ := by
  simp only [uploadHandler, hm, ne_eq, not_true_eq_false, if_false, hp, hf, hx,
    Bool.false_eq_true, not_false_eq_true, if_true, write_after_writeHeader, deferFileClose,
    List.cons_append, List.nil_append]

theorem uploadHandler_read_error (tbl : Nat → Nat) (world : World) (r : Request)
    (files : List (Bytes × FileHeader)) (header : FileHeader) (e : String)
    (hm : r.method = lit "POST") (hp : parseMultipartForm world r (3 <<< 20) = .ok files)
    (hf : formFile world files (lit "image") = .ok header)
    (hx : isValidImageType tbl header.filename = true)
    (hr : ioReadAll world header = .error e) :
    uploadHandler tbl world r =
      ⟨responded 500 (lit "\x7b\"error\": \"Failed to read uploaded file\"\x7d"),
        [Event.parseMultipartForm (3 <<< 20), Event.formFile (lit "image"), Event.readAll,
          Event.fileClose]⟩ := by
  simp only [uploadHandler, hm, ne_eq, not_true_eq_false, if_false, hp, hf, hx, hr,
    write_after_writeHeader, deferFileClose, List.cons_append, List.nil_append]

theorem uploadHandler_ocr_error (tbl : Nat → Nat) (world : World) (r : Request)
    (files : List (Bytes × FileHeader)) (header : FileHeader) (fileBytes err : Bytes)
    (hm : r.method = lit "POST") (hp : parseMultipartForm world r (3 <<< 20) = .ok files)
    (hf : formFile world files (lit "image") = .ok header)
    (hx : isValidImageType tbl header.filename = true)
    (hr : ioReadAll world header = .ok fileBytes)
    (ho : (performOCRFromBytes world.engine fileBytes).1 = .error err) :
    uploadHandler tbl world r =
      ⟨responded 500 (lit "\x7b\"error\": \"OCR failed: " ++ err ++ lit "\"\x7d"),
        [Event.parseMultipartForm (3 <<< 20), Event.formFile (lit "image"), Event.readAll] ++
          (performOCRFromBytes world.engine fileBytes).2.map Event.engine ++
          [Event.fileClose]⟩ := by
  simp only [uploadHandler, hm, ne_eq, not_true_eq_false, if_false, hp, hf, hx, hr, ho,
    write_after_writeHeader, deferFileClose, List.cons_append, List.nil_append,
    List.append_assoc]

theorem uploadHandler_success (tbl : Nat → Nat) (world : World) (r : Request)
    (files : List (Bytes × FileHeader)) (header : FileHeader) (fileBytes text : Bytes)
    (hm : r.method = lit "POST") (hp : parseMultipartForm world r (3 <<< 20) = .ok files)
    (hf : formFile world files (lit "image") = .ok header)
    (hx : isValidImageType tbl header.filename = true)
    (hr : ioReadAll world header = .ok fileBytes)
    (ho : (performOCRFromBytes world.engine fileBytes).1 = .ok text) :
    uploadHandler tbl world r =
      ⟨⟨jsonHeader, some (200, jsonHeader),
          lit "\x7b\"text\":" ++ jsonString text ++ lit ",\"filename\":" ++
            jsonString header.filename ++ lit "\x7d",
          [],
          [lit "\x7b\"text\":" ++ jsonString text ++ lit ",\"filename\":" ++
            jsonString header.filename ++ lit "\x7d"]⟩,
        [Event.parseMultipartForm (3 <<< 20), Event.formFile (lit "image"), Event.readAll] ++
          (performOCRFromBytes world.engine fileBytes).2.map Event.engine ++
          [Event.fileClose]⟩ := by
  simp only [uploadHandler, hm, ne_eq, not_true_eq_false, if_false, hp, hf, hx, hr, ho,
    write_without_writeHeader, deferFileClose, List.cons_append, List.nil_append,
    List.append_assoc, jsonMarshalResponse]

/-! ## Claims on `uploadHandler` -/

/-- C3, refuted as stated: the uploaded filename `a.gİf` (bytes `61 2E 67 C4 B0 66`) has
an extension that is no upper/lower-case variant of an allowed one, yet the POST is not
answered with 400: the answer is 200, the file body is read and the OCR engine is
invoked on it. -/
theorem uploadHandler_nonascii_extension :
    (∀ v ∈ validExts, caseVariant (filepathExt [0x61, 0x2E, 0x67, 0xC4, 0xB0, 0x66]) v = false) ∧
    (uploadHandler caseRangesLower (worldOf (engineReturning (lit "hi")))
      (postImage [0x61, 0x2E, 0x67, 0xC4, 0xB0, 0x66] (lit "x"))).status = some 200 ∧
    Event.readAll ∈ (uploadHandler caseRangesLower (worldOf (engineReturning (lit "hi")))
      (postImage [0x61, 0x2E, 0x67, 0xC4, 0xB0, 0x66] (lit "x"))).events ∧
    Event.engine (EngineOp.setImageFromBytes (lit "x")) ∈
      (uploadHandler caseRangesLower (worldOf (engineReturning (lit "hi")))
        (postImage [0x61, 0x2E, 0x67, 0xC4, 0xB0, 0x66] (lit "x"))).events := by
  decide

/-- C3, amended: for every POST whose form parses and holds an `image` file whose
extension is not an upper/lower-case variant of an allowed extension, provided no rune of
the extension outside ASCII has a lower case inside ASCII in the Unicode case tables,
`uploadHandler` answers 400 with an error body; the file body is not read and the OCR
engine is not invoked: the only events are the form parse, the file lookup and the
deferred close of the file. -/
theorem uploadHandler_disallowed_extension (tbl : Nat → Nat) (world : World) (r : Request)
    (files : List (Bytes × FileHeader)) (header : FileHeader)
    (hm : r.method = lit "POST") (hp : parseMultipartForm world r (3 <<< 20) = .ok files)
    (hf : formFile world files (lit "image") = .ok header)
    (h : ∀ v ∈ validExts, caseVariant (filepathExt header.filename) v = false)
    (hr : ∀ c ∈ runes (filepathExt header.filename), 0x80 ≤ c → 0x80 ≤ tbl c) :
    (uploadHandler tbl world r).status = some 400 ∧
    (uploadHandler tbl world r).w.writeHeaderCalls = [400] ∧
    jsonReadObject (uploadHandler tbl world r).w.body = some [(lit "error",
      lit "Please upload a valid image file (PNG, JPG, JPEG, GIF, BMP)")] ∧
    (uploadHandler tbl world r).events = [Event.parseMultipartForm (3 <<< 20),
      Event.formFile (lit "image"), Event.fileClose] ∧
    Event.readAll ∉ (uploadHandler tbl world r).events ∧
    ∀ op, Event.engine op ∉ (uploadHandler tbl world r).events := by
  have hx := isValidImageType_not_variant tbl header.filename h hr
  rw [uploadHandler_invalid_type tbl world r files header hm hp hf hx]
  refine ⟨rfl, rfl, by decide, rfl, by decide, ?_⟩
  intro op
  simp

theorem uploadHandler_disallowed_extension_witness :
    (uploadHandler caseRangesLower (worldOf (engineReturning (lit "never")))
      (postImage (lit "notes.txt") (lit "hello"))).status = some 400 ∧
    ∀ op, Event.engine op ∉ (uploadHandler caseRangesLower
      (worldOf (engineReturning (lit "never")))
      (postImage (lit "notes.txt") (lit "hello"))).events :=
  have h := uploadHandler_disallowed_extension caseRangesLower
    (worldOf (engineReturning (lit "never"))) (postImage (lit "notes.txt") (lit "hello"))
    [(lit "image", ⟨lit "notes.txt", lit "hello", false⟩)]
    ⟨lit "notes.txt", lit "hello", false⟩ rfl rfl rfl (by decide) (by decide)
  ⟨h.1, h.2.2.2.2.2⟩

/-- C7, refuted as stated: for a GET request the response carries the `Content-Type`
`text/html; charset=utf-8` set by `http.Redirect`, and for a PUT request it carries no
`Content-Type` at all; neither is `application/json`. -/
theorem uploadHandler_redirect_content_type :
    (uploadHandler caseRangesLower (worldOf (engineReturning []))
      ⟨lit "GET", true, none⟩).sentHeader (lit "Content-Type") =
        some (lit "text/html; charset=utf-8") ∧
    (uploadHandler caseRangesLower (worldOf (engineReturning []))
      ⟨lit "PUT", true, none⟩).sentHeader (lit "Content-Type") = none ∧
    (uploadHandler caseRangesLower (worldOf (engineReturning []))
      ⟨lit "GET", true, none⟩).sentHeader (lit "Content-Type") ≠
        some (lit "application/json") := by
  decide

/-- C7, amended: for every POST request to `/upload`, whatever its outcome (400, 500 or
200), the `Content-Type` of the response is `application/json`. -/
theorem uploadHandler_post_content_type (tbl : Nat → Nat) (world : World) (r : Request)
    (hm : r.method = lit "POST") :
    (uploadHandler tbl world r).sentHeader (lit "Content-Type") =
      some (lit "application/json") := by
  cases hp : parseMultipartForm world r (3 <<< 20) with
  | error e => rw [uploadHandler_parse_error tbl world r e hm hp]; rfl
  | ok files =>
    cases hf : formFile world files (lit "image") with
    | error e => rw [uploadHandler_missing_file tbl world r files e hm hp hf]; rfl
    | ok header =>
      cases hx : isValidImageType tbl header.filename with
      | false => rw [uploadHandler_invalid_type tbl world r files header hm hp hf hx]; rfl
      | true =>
        cases hr : ioReadAll world header with
        | error e => rw [uploadHandler_read_error tbl world r files header e hm hp hf hx hr]; rfl
        | ok fileBytes =>
          cases ho : (performOCRFromBytes world.engine fileBytes).1 with
          | error err =>
            rw [uploadHandler_ocr_error tbl world r files header fileBytes err hm hp hf hx hr ho]
            rfl
          | ok text =>
            rw [uploadHandler_success tbl world r files header fileBytes text hm hp hf hx hr ho]
            rfl

theorem uploadHandler_post_content_type_witness :
    (uploadHandler caseRangesLower (worldOf (engineReturning (lit "hi")))
      (postImage (lit "a.png") (lit "x"))).sentHeader (lit "Content-Type") =
      some (lit "application/json") :=
  uploadHandler_post_content_type caseRangesLower (worldOf (engineReturning (lit "hi")))
    (postImage (lit "a.png") (lit "x")) rfl

/-- C8: for every request whose method is not exactly `POST`, `uploadHandler` answers
with a 303 redirect to `/` and does nothing else: `WriteHeader` is called once, the form
is not parsed, the OCR engine is not invoked (there is no event at all), and the body is
not JSON: it is empty, or for GET the HTML link written by `http.Redirect`. -/
theorem uploadHandler_other_method (tbl : Nat → Nat) (world : World) (r : Request)
    (hm : r.method ≠ lit "POST") :
    (uploadHandler tbl world r).status = some 303 ∧
    (uploadHandler tbl world r).sentHeader (lit "Location") = some (lit "/") ∧
    (uploadHandler tbl world r).w.writeHeaderCalls = [303] ∧
    (uploadHandler tbl world r).events = [] ∧
    jsonReadObject (uploadHandler tbl world r).w.body = none ∧
    (uploadHandler tbl world r).w.body =
      (if r.method = lit "GET" then lit "<a href=\"/\">See Other</a>.\n\n" else []) := by
  rw [uploadHandler_not_post tbl world r hm]
  by_cases hg : r.method = lit "GET"
  · have hw : httpRedirect world ResponseWriter.fresh (lit "GET") (lit "/") 303 =
        ⟨[(lit "Content-Type", lit "text/html; charset=utf-8"), (lit "Location", lit "/")],
          some (303, [(lit "Content-Type", lit "text/html; charset=utf-8"),
            (lit "Location", lit "/")]),
          lit "<a href=\"/\">See Other</a>.\n\n", [303],
          [lit "<a href=\"/\">See Other</a>.\n\n"]⟩ := rfl
    rw [hg, hw]
    exact ⟨rfl, by decide, rfl, rfl, by decide, by decide⟩
  · by_cases hh : r.method = lit "HEAD"
    · have hw : httpRedirect world ResponseWriter.fresh (lit "HEAD") (lit "/") 303 =
          ⟨[(lit "Content-Type", lit "text/html; charset=utf-8"), (lit "Location", lit "/")],
            some (303, [(lit "Content-Type", lit "text/html; charset=utf-8"),
              (lit "Location", lit "/")]), [], [303], []⟩ := rfl
      rw [hh, hw]
      exact ⟨rfl, by decide, rfl, rfl, by decide, by decide⟩
    · have hw : httpRedirect world ResponseWriter.fresh r.method (lit "/") 303 =
          ⟨[(lit "Location", lit "/")], some (303, [(lit "Location", lit "/")]), [], [303],
            []⟩ := by
        simp [httpRedirect, hg, hh, ResponseWriter.headerSet, ResponseWriter.writeHeader,
          ResponseWriter.fresh]
      rw [hw, if_neg hg]
      exact ⟨rfl, by decide, rfl, rfl, by decide, rfl⟩

theorem uploadHandler_other_method_witness :
    (uploadHandler caseRangesLower (worldOf (engineReturning [])) ⟨lit "post", true,
      some [⟨lit "image", lit "a.png", lit "x"⟩]⟩).status = some 303 ∧
    (uploadHandler caseRangesLower (worldOf (engineReturning [])) ⟨lit "post", true,
      some [⟨lit "image", lit "a.png", lit "x"⟩]⟩).events = [] :=
  have h := uploadHandler_other_method caseRangesLower (worldOf (engineReturning []))
    ⟨lit "post", true, some [⟨lit "image", lit "a.png", lit "x"⟩]⟩ (by decide)
  ⟨h.1, h.2.2.2.1⟩

theorem parseMultipartForm_large_file (eng : Engine) (filename content : Bytes)
    (hn : filename ≠ []) (hlen : 3 <<< 20 < content.length) :
    parseMultipartForm (worldOf eng) (postImage filename content) (3 <<< 20) =
      .ok [(lit "image", ⟨filename, content, true⟩)] := by
  have h1 : (lit "image" = ([] : Bytes)) = False := by decide
  have h2 : (3 : Nat) <<< 20 = 3145728 := by decide
  rw [h2] at hlen ⊢
  have h3 : min (content.length : Int) ((3145728 : Nat) + 1) > ((3145728 : Nat) : Int) := by
    simp only [gt_iff_lt, lt_min_iff]
    omega
  simp only [parseMultipartForm, postImage, readFormLoop, h1, if_false, hn, h3, if_true,
    worldOf, List.nil_append]

theorem uploadHandler_large_file (tbl : Nat → Nat) (eng : Engine) (filename content : Bytes)
    (hx : isValidImageType tbl filename = true) (hlen : 3 <<< 20 < content.length) :
    ((uploadHandler tbl (worldOf eng) (postImage filename content)).status = some 200 ∨
      (uploadHandler tbl (worldOf eng) (postImage filename content)).status = some 500) ∧
    Event.engine (EngineOp.setImageFromBytes content) ∈
      (uploadHandler tbl (worldOf eng) (postImage filename content)).events := by
  have hn : filename ≠ [] := by
    rintro rfl
    have : ∀ tbl, isValidImageType tbl [] = false := by
      intro tbl
      rfl
    rw [this] at hx
    exact Bool.noConfusion hx
  have hp := parseMultipartForm_large_file eng filename content hn hlen
  have hf : formFile (worldOf eng) [(lit "image", ⟨filename, content, true⟩)]
      (lit "image") = .ok ⟨filename, content, true⟩ := by
    simp [formFile, worldOf]
  have hcalls := performOCRFromBytes_calls eng content
  cases ho : (performOCRFromBytes (worldOf eng).engine content).1 with
  | error err =>
    rw [uploadHandler_ocr_error tbl _ _ _ ⟨filename, content, true⟩ content err
      rfl hp hf hx rfl ho]
    refine ⟨Or.inr rfl, ?_⟩
    simp [worldOf, hcalls]
  | ok text =>
    rw [uploadHandler_success tbl _ _ _ ⟨filename, content, true⟩ content text
      rfl hp hf hx rfl ho]
    refine ⟨Or.inl rfl, ?_⟩
    simp [worldOf, hcalls]

/-- C6, the code at the failing input: a POST whose `image` file `big.png` has
3 MiB + 1 bytes is not answered with 400; the form parses (the file goes to a temporary
file), all 3145729 bytes are handed to the OCR engine, and the answer is 200 or 500 as
the engine decides. -/
theorem uploadHandler_oversized_image (eng : Engine) :
    3 <<< 20 < (List.replicate 3145729 0).length ∧
    ((uploadHandler caseRangesLower (worldOf eng)
        (postImage (lit "big.png") (List.replicate 3145729 0))).status = some 200 ∨
      (uploadHandler caseRangesLower (worldOf eng)
        (postImage (lit "big.png") (List.replicate 3145729 0))).status = some 500) ∧
    Event.engine (EngineOp.setImageFromBytes (List.replicate 3145729 0)) ∈
      (uploadHandler caseRangesLower (worldOf eng)
        (postImage (lit "big.png") (List.replicate 3145729 0))).events := by
  have hlen : 3 <<< 20 < (List.replicate 3145729 0).length := by
    rw [List.length_replicate]
    decide
  exact ⟨hlen, uploadHandler_large_file caseRangesLower eng (lit "big.png") _
    (by decide) hlen⟩

/-- C4, the code at the failing input: when the engine rejects the image with the
message `cannot read "tessdata"`, the answer is 500 and the body, the message pasted
between quotes without escaping, is not a JSON text. -/
theorem uploadHandler_ocr_error_quote :
    (uploadHandler caseRangesLower (worldOf (engineRejecting (lit "cannot read \"tessdata\"")))
      (postImage (lit "a.png") (lit "x"))).status = some 500 ∧
    (uploadHandler caseRangesLower (worldOf (engineRejecting (lit "cannot read \"tessdata\"")))
      (postImage (lit "a.png") (lit "x"))).w.body =
      lit "\x7b\"error\": \"OCR failed: failed to set image: cannot read \"tessdata\"\"\x7d" ∧
    jsonReadObject (uploadHandler caseRangesLower
      (worldOf (engineRejecting (lit "cannot read \"tessdata\"")))
      (postImage (lit "a.png") (lit "x"))).w.body = none := by
  decide

/-- C9, the code at the failing input: when text extraction fails with the message
`x", "text": "y`, the body of the 500 answer is a JSON object that has a `text` field
next to its `error` field. -/
theorem uploadHandler_ocr_error_text_field :
    (uploadHandler caseRangesLower
      (worldOf (engineFailing (lit "x\", \"text\": \"y")))
      (postImage (lit "a.png") (lit "x"))).status = some 500 ∧
    jsonReadObject (uploadHandler caseRangesLower
      (worldOf (engineFailing (lit "x\", \"text\": \"y")))
      (postImage (lit "a.png") (lit "x"))).w.body =
      some [(lit "error", lit "OCR failed: failed to extract text: x"), (lit "text", lit "y")] := by
  decide

theorem performOCRFromBytes_ok (eng : Engine) (imageBytes t : Bytes)
    (hs : eng.setImage imageBytes = none) (ht : eng.text imageBytes = .ok t) :
    (performOCRFromBytes eng imageBytes).1 = .ok (stringsTrimSpace t) := by
  simp [performOCRFromBytes, withDeferred, hs, ht]

/-- C5, refuted as stated: for the uploaded filename `\xff.png` (bytes `FF 2E 70 6E 67`,
an allowed extension) and the engine text ` hi `, the answer is 200 and the body reads as
the fields `text` = `hi` and `filename`, but `filename` reads as `EF BF BD 2E 70 6E 67`
(U+FFFD, then `.png`), which is not the uploaded filename. -/
theorem uploadHandler_invalid_utf8_filename :
    isValidImageType caseRangesLower [0xFF, 0x2E, 0x70, 0x6E, 0x67] = true ∧
    (uploadHandler caseRangesLower (worldOf (engineReturning (lit " hi \n")))
      (postImage [0xFF, 0x2E, 0x70, 0x6E, 0x67] (lit "x"))).status = some 200 ∧
    jsonReadObject (uploadHandler caseRangesLower (worldOf (engineReturning (lit " hi \n")))
      (postImage [0xFF, 0x2E, 0x70, 0x6E, 0x67] (lit "x"))).w.body =
      some [(lit "text", lit "hi"), (lit "filename", [0xEF, 0xBF, 0xBD, 0x2E, 0x70, 0x6E, 0x67])] ∧
    [0xEF, 0xBF, 0xBD, 0x2E, 0x70, 0x6E, 0x67] ≠ [0xFF, 0x2E, 0x70, 0x6E, 0x67] := by
  decide

/-- C5, amended: for every POST with a parsable form, an `image` file with an allowed
extension, a readable body and a successful OCR run returning the raw text `t`, provided
the filename and the trimmed text are valid UTF-8, `uploadHandler` answers 200 (by one
`Write`, without `WriteHeader`) with a JSON object of exactly the fields `text` and
`filename`, in which `filename` reads as the uploaded filename and `text` reads as `t`
with all leading and trailing white space removed; when `t` is made of white space only
(or is empty), `text` is present with the empty string as value. -/
theorem uploadHandler_success_response (tbl : Nat → Nat) (world : World) (r : Request)
    (files : List (Bytes × FileHeader)) (header : FileHeader) (fileBytes t : Bytes)
    (hm : r.method = lit "POST") (hp : parseMultipartForm world r (3 <<< 20) = .ok files)
    (hf : formFile world files (lit "image") = .ok header)
    (hx : isValidImageType tbl header.filename = true)
    (hr : ioReadAll world header = .ok fileBytes)
    (hs : world.engine.setImage fileBytes = none)
    (ht : world.engine.text fileBytes = .ok t)
    (hv1 : utf8Valid header.filename = true) (hv2 : utf8Valid (trimSpec t) = true) :
    (uploadHandler tbl world r).status = some 200 ∧
    (uploadHandler tbl world r).w.writeHeaderCalls = [] ∧
    (uploadHandler tbl world r).w.writes.length = 1 ∧
    jsonReadObject (uploadHandler tbl world r).w.body =
      some [(lit "text", trimSpec t), (lit "filename", header.filename)] ∧
    ((∃ l : List Bytes, (∀ e ∈ l, e ∈ spaceEncodings) ∧ t = l.flatten) →
      jsonReadObject (uploadHandler tbl world r).w.body =
        some [(lit "text", []), (lit "filename", header.filename)]) := by
  have ho := performOCRFromBytes_ok world.engine fileBytes t hs ht
  rw [stringsTrimSpace_eq_trimSpec] at ho
  rw [uploadHandler_success tbl world r files header fileBytes (trimSpec t) hm hp hf hx hr ho]
  have hbody := jsonReadObject_response (trimSpec t) header.filename hv2 hv1
  refine ⟨rfl, rfl, rfl, hbody, ?_⟩
  rintro ⟨l, hl, rfl⟩
  rw [← trimSpec_spaces l hl]
  exact hbody

theorem uploadHandler_success_response_witness :
    jsonReadObject (uploadHandler caseRangesLower
      (worldOf (engineReturning (lit "\n  Hello, \"World\" \t\n")))
      (postImage (lit "scan.PNG") (lit "x"))).w.body =
      some [(lit "text", lit "Hello, \"World\""), (lit "filename", lit "scan.PNG")] :=
  (uploadHandler_success_response caseRangesLower
    (worldOf (engineReturning (lit "\n  Hello, \"World\" \t\n")))
    (postImage (lit "scan.PNG") (lit "x"))
    [(lit "image", ⟨lit "scan.PNG", lit "x", false⟩)] ⟨lit "scan.PNG", lit "x", false⟩
    (lit "x") (lit "\n  Hello, \"World\" \t\n") rfl rfl rfl (by decide) rfl rfl rfl
    (by decide) (by decide)).2.2.2.1.trans (by decide)

/-- The failure classes answered with a fixed body: each body is a JSON object whose
only field is `error`. -/
theorem uploadHandler_fixed_errors :
    jsonReadObject (lit "\x7b\"error\": \"File too large or invalid form data\"\x7d") =
      some [(lit "error", lit "File too large or invalid form data")] ∧
    jsonReadObject (lit "\x7b\"error\": \"No file uploaded or invalid file\"\x7d") =
      some [(lit "error", lit "No file uploaded or invalid file")] ∧
    jsonReadObject (lit
      "\x7b\"error\": \"Please upload a valid image file (PNG, JPG, JPEG, GIF, BMP)\"\x7d") =
      some [(lit "error", lit "Please upload a valid image file (PNG, JPG, JPEG, GIF, BMP)")] ∧
    jsonReadObject (lit "\x7b\"error\": \"Failed to read uploaded file\"\x7d") =
      some [(lit "error", lit "Failed to read uploaded file")] ∧
    jsonReadObject (lit "\x7b\"error\": \"Failed to encode response\"\x7d") =
      some [(lit "error", lit "Failed to encode response")] := by
  decide

/-- The body written on an OCR failure reads back as the single field `error` when the
error message holds no double quote, backslash or control character. -/
theorem jsonReadObject_ocr_error (err : Bytes)
    (hplain : ∀ c ∈ err, c ≠ 34 ∧ c ≠ 92 ∧ 0x20 ≤ c) :
    jsonReadObject (lit "\x7b\"error\": \"OCR failed: " ++ err ++ lit "\"\x7d") =
      some [(lit "error", lit "OCR failed: " ++ err)] := by
  have h1 : lit "\x7b\"error\": \"OCR failed: " =
      123 :: 34 :: (lit "error" ++ 34 :: 58 :: 32 :: 34 :: lit "OCR failed: ") := by decide
  have h2 : lit "\"\x7d" = [34, 125] := by decide
  have hb : lit "\x7b\"error\": \"OCR failed: " ++ err ++ lit "\"\x7d" =
      123 :: 34 :: (lit "error" ++ 34 :: 58 :: 32 :: 34 ::
        ((lit "OCR failed: " ++ err) ++ 34 :: [125])) := by
    rw [h1, h2]
    simp
  have hplain' : ∀ c ∈ lit "OCR failed: " ++ err, c ≠ 34 ∧ c ≠ 92 ∧ 0x20 ≤ c := by
    intro c hc
    rcases List.mem_append.1 hc with h | h
    · have : ∀ c ∈ lit "OCR failed: ", c ≠ 34 ∧ c ≠ 92 ∧ 0x20 ≤ c := by decide
      exact this c h
    · exact hplain c h
  rw [hb]
  simp only [jsonReadObject]
  rw [jsonSkipWs_cons 123 _ (by decide)]
  simp only [ne_eq, not_true_eq_false, if_false]
  rw [jsonSkipWs_cons 34 _ (by decide)]
  have h34 : (34 : Nat) = 125 ↔ False := by decide
  simp only [h34, if_false, List.length_cons]
  rw [jsonReadMembers]
  rw [jsonSkipWs_cons 34 _ (by decide)]
  simp only [ne_eq, not_true_eq_false, if_false]
  rw [jsonReadString_key (lit "error") _ (by decide)]
  simp only []
  rw [jsonSkipWs_cons 58 _ (by decide)]
  simp only [ne_eq, not_true_eq_false, if_false]
  have hws : jsonSkipWs (32 :: 34 :: ((lit "OCR failed: " ++ err) ++ 34 :: [125])) =
      34 :: ((lit "OCR failed: " ++ err) ++ 34 :: [125]) := by
    simp [jsonSkipWs, List.dropWhile_cons, jsonWs]
  rw [hws]
  simp only [ne_eq, not_true_eq_false, if_false]
  rw [jsonReadString_key _ _ hplain']
  simp only []
  rw [jsonSkipWs_cons 125 _ (by decide)]
  simp [jsonSkipWs]


end ImgToText
